import Mathlib

/-!
# BlackRoad API gateway: rate limiting, routing and proxying

A shallow embedding of `src/index.js`.  The gateway is a Hono application: a
chain of middleware (`logger`, `cors`, `jwt`, `checkRateLimit`) in front of
three product handlers that forward to a backend, two admin handlers, two
authentication stubs and a webhook stub.

Conventions of the embedding:

* effects are explicit: the `RATE_LIMIT` key-value namespace, the outbound
  `fetch` calls and the usage lines written by `trackUsage` are fields of a
  `World` that every handler threads through;
* what lives outside the file (JWT verification, the backends, the D1
  database, JSON parsing of a request body, date formatting) is a field of
  `Platform`;
* JavaScript numbers are modelled by integers plus `NaN`; the counters the
  gateway handles stay far below `2^53`, where the double arithmetic of the
  source is exact.
-/

namespace Gateway

/-! ## JavaScript numbers and strings -/

/-- A JavaScript number as the rate limiter meets it: an integer, or `NaN`
(`none`). -/
abbrev JsNum := Option Int

/-- The white space and line terminators that `parseInt` skips at the start
of its argument (`StrWhiteSpaceChar` of ECMAScript). -/
def isStrWhiteSpace (c : Char) : Bool :=
  let n := c.toNat
  n = 9 || n = 10 || n = 11 || n = 12 || n = 13 || n = 32 || n = 0xA0 ||
  n = 0x1680 || (0x2000 ≤ n && n ≤ 0x200A) || n = 0x2028 || n = 0x2029 ||
  n = 0x202F || n = 0x205F || n = 0x3000 || n = 0xFEFF

/-- The value of a character as a digit, letters counting from ten. -/
def digitValue (c : Char) : Option Nat :=
  let n := c.toNat
  if 48 ≤ n ∧ n ≤ 57 then some (n - 48)
  else if 97 ≤ n ∧ n ≤ 122 then some (n - 87)
  else if 65 ≤ n ∧ n ≤ 90 then some (n - 55)
  else none

/-- The value of a character as a digit of radix `R`, if it is one. -/
def radixDigit (R : Nat) (c : Char) : Option Nat :=
  match digitValue c with
  | some d => if d < R then some d else none
  | none => none

/-- The longest prefix of the text made of radix-`R` digits, as digit
values. -/
def takeDigits (R : Nat) : List Char → List Nat
  | [] => []
  | c :: cs =>
    match radixDigit R c with
    | some d => d :: takeDigits R cs
    | none => []

/-- The number the digits `ds` (most significant first) denote in radix `R`. -/
def digitsValue (R : Nat) (ds : List Nat) : Nat :=
  ds.foldl (fun acc d => acc * R + d) 0

/-- The sign prefix read by `parseInt`: the sign and the rest of the text. -/
def splitSign : List Char → Int × List Char
  | '-' :: r => (-1, r)
  | '+' :: r => (1, r)
  | s => (1, s)

/-- The radix prefix read by `parseInt` when no radix is given: `0x` or `0X`
selects sixteen, anything else ten. -/
def splitRadix : List Char → Nat × List Char
  | '0' :: 'x' :: r => (16, r)
  | '0' :: 'X' :: r => (16, r)
  | s => (10, s)

/-- JavaScript `parseInt(s)` with no radix argument: skip leading white
space, read a sign, read a `0x` prefix, take the longest run of digits;
`NaN` when that run is empty. -/
def parseInt (s : String) : JsNum :=
  let trimmed := s.data.dropWhile isStrWhiteSpace
  let (sign, unsigned) := splitSign trimmed
  let (R, body) := splitRadix unsigned
  let Z := takeDigits R body
  if Z.isEmpty then none else some (sign * (digitsValue R Z : Nat))

/-- The character of a decimal digit. -/
def digitChar (d : Nat) : Char := Char.ofNat (48 + d)

/-- The decimal digits of `n` pushed in front of `acc`, most significant
first; `fuel` bounds the number of digits produced. -/
def decimalDigits : Nat → Nat → List Char → List Char
  | 0, _, acc => acc
  | fuel + 1, n, acc =>
    if n < 10 then digitChar n :: acc
    else decimalDigits fuel (n / 10) (digitChar (n % 10) :: acc)

/-- The decimal text of a natural number, as `Number.prototype.toString`
prints a non-negative integer. -/
def natToString (n : Nat) : String := String.mk (decimalDigits (n + 1) n [])

/-- JavaScript `x.toString()` and template interpolation of a number. -/
def numToString : JsNum → String
  | none => "NaN"
  | some (Int.ofNat n) => natToString n
  | some (Int.negSucc n) => "-" ++ natToString (n + 1)

/-- JavaScript `x | 0` on an integral value: reduction modulo `2^32` into the
signed 32-bit range. -/
def toInt32 (x : Int) : Int := (x + 2147483648) % 4294967296 - 2147483648

/-! ## The `RATE_LIMIT` key-value namespace -/

/-- One stored pair of the key-value namespace with the instant (in
milliseconds since the epoch) at which it expires. -/
structure KVEntry where
  key : String
  value : String
  expiresAt : Nat

/-- The namespace: the most recent write of a key comes first. -/
abbrev KV := List KVEntry

/-- The value stored for `key` as `RATE_LIMIT.get(key)` reads it at instant
`now`: the latest write, unless it has expired; `none` is JavaScript
`null`. -/
def KV.get (kv : KV) (key : String) (now : Nat) : Option String :=
  match kv.find? (fun e => e.key == key) with
  | some e => if now < e.expiresAt then some e.value else none
  | none => none

/-- The namespace after `RATE_LIMIT.put(key, value, { expirationTtl })` at
instant `now`; the time to live is in seconds. -/
def KV.put (kv : KV) (key value : String) (expirationTtl now : Nat) : KV :=
  { key := key, value := value, expiresAt := now + expirationTtl * 1000 } :: kv

/-! ## Requests, responses and the request context -/

/-- A header list, in order. -/
abbrev Headers := List (String × String)

/-- A JSON document. -/
inductive Json where
  | null
  | bool (b : Bool)
  | num (n : Int)
  | str (s : String)
  | arr (items : List Json)
  | obj (fields : List (String × Json))

/-- The body of a request or response. -/
inductive Body where
  | empty
  | raw (bytes : String)
  | json (doc : Json)
  | text (s : String)

/-- An inbound request: `c.req.method`, `c.req.path` (the path name of the
URL, without the query), `c.req.raw.headers` and `c.req.raw.body`. -/
structure Request where
  method : String
  path : String
  headers : Headers
  body : Body

/-- An HTTP response. -/
structure Response where
  status : Nat
  headers : Headers
  body : Body

/-- The verified token payload that the `jwt` middleware stores under
`jwtPayload`; `sub` is the text that interpolating `payload.sub` yields (a
string subject id yields itself). -/
structure JwtPayload where
  sub : String

/-- The Hono context `c` of one request once the `jwt` middleware has run,
with the instant `Date.now()` returns while the request is handled. -/
structure Context where
  req : Request
  jwtPayload : JwtPayload
  now : Nat

/-- Hono `c.json(doc, status)`: the document as the body, with the JSON
content type.  Headers that other middleware adds to every response (the
CORS headers) are left out of the model. -/
def jsonResponse (doc : Json) (status : Nat) : Response :=
  { status := status, headers := [("Content-Type", "application/json")], body := Body.json doc }

/-- Hono `c.text(s, status)`. -/
def textResponse (s : String) (status : Nat) : Response :=
  { status := status, headers := [("Content-Type", "text/plain; charset=UTF-8")],
    body := Body.text s }

/-! ## `checkRateLimit` -/

/-- What a middleware does with a request: hand it on (`await next()`) or
answer it. -/
inductive Outcome where
  | next
  | respond (r : Response)

/-- The number of the one-minute window of an instant, `Date.now() / 60000 | 0`. -/
def windowIndex (now : Nat) : Int := toInt32 (Int.ofNat (now / 60000))

/-- The counter key of line 74, built from the subject and `Date.now()`. -/
def rateLimitKey (userId : String) (now : Nat) : String :=
  "rate_limit:" ++ userId ++ ":" ++ numToString (some (windowIndex now))

/-- Requests per minute, line 79. -/
def limit : Int := 1000

/-- JavaScript truthiness of the value read from the store: `null` and the
empty string are falsy. -/
def truthy : Option String → Bool
  | none => false
  | some s => !s.data.isEmpty

/-- The guard of line 81, `count && parseInt(count) >= limit`; a comparison
with `NaN` is false. -/
def overLimit (count : Option String) : Bool :=
  match count with
  | none => false
  | some s =>
    truthy (some s) &&
    (match parseInt s with
     | some v => decide (limit ≤ v)
     | none => false)

/-- The text written back on line 85,
`(parseInt(count || 0) + 1).toString()`. -/
def nextCount (count : Option String) : String :=
  let parsed : JsNum :=
    match count with
    | some s => if truthy (some s) then parseInt s else parseInt (numToString (some 0))
    | none => parseInt (numToString (some 0))
  numToString (parsed.map (fun v => v + 1))

/-- The response of line 82. -/
def rateLimitExceeded : Response :=
  jsonResponse (Json.obj [("error", Json.str "Rate limit exceeded")]) 429

/-- Line 76: the read of the counter. -/
def readCount (c : Context) (kv : KV) : Option String :=
  kv.get (rateLimitKey c.jwtPayload.sub c.now) c.now

/-- Lines 79 to 87, given the value the read returned: reject without
writing, or write the incremented counter and hand the request on. -/
def afterRead (c : Context) (count : Option String) (kv : KV) : Outcome × KV :=
  if overLimit count then (Outcome.respond rateLimitExceeded, kv)
  else (Outcome.next, kv.put (rateLimitKey c.jwtPayload.sub c.now) (nextCount count) 60 c.now)

/-- The middleware `checkRateLimit(c, next)` run without interruption. -/
def checkRateLimit (c : Context) (kv : KV) : Outcome × KV :=
  afterRead c (readCount c kv) kv

/-- Requests run one after another through `checkRateLimit`: the outcomes in
order and the namespace left behind. -/
def runSequential : List Context → KV → List Outcome × KV
  | [], kv => ([], kv)
  | c :: rest, kv =>
    let step := checkRateLimit c kv
    let tail := runSequential rest step.2
    (step.1 :: tail.1, tail.2)

/-- Whether the middleware handed the request on. -/
def Outcome.admitted : Outcome → Bool
  | Outcome.next => true
  | Outcome.respond _ => false

/-- Whether the middleware answered with the given status. -/
def Outcome.hasStatus (o : Outcome) (status : Nat) : Bool :=
  match o with
  | Outcome.next => false
  | Outcome.respond r => r.status == status


/-! ## The world around the handlers -/

/-- An outbound call `fetch(url, { method, headers, body })`. -/
structure FetchCall where
  url : String
  method : String
  headers : Headers
  body : Body

/-- What the gateway uses and does not define.
* `verifyJwt`: the `jwt({ secret })` middleware of Hono applied to the
  headers of a request: the verified payload, or `none` when the credential
  is missing or invalid;
* `fetch`: the backend behind a URL; `none` when the call fails;
* `dbAll`: `DB.prepare(sql).all()`, the `results` of the query; `none` when
  the query fails;
* `parseJson`: `c.req.json()`; `none` when the body is not JSON;
* `toISOString`: the ISO text of an instant. -/
structure Platform where
  verifyJwt : Headers → Option JwtPayload
  fetch : FetchCall → Option Response
  dbAll : String → Option Json
  parseJson : Body → Option Json
  toISOString : Nat → String

/-- The state the handlers act on: the `RATE_LIMIT` namespace, the outbound
calls made so far and the usage lines logged so far, oldest first. -/
structure World where
  kv : KV
  fetches : List FetchCall
  usage : List String

/-! ## Product routing -/

/-- JavaScript `s.replace(pattern, replacement)` with a string pattern, on
character lists: the first occurrence of the pattern is replaced. -/
def replaceFirst (pattern replacement : List Char) : List Char → List Char
  | [] => if pattern.isEmpty then replacement else []
  | c :: cs =>
    if pattern.isPrefixOf (c :: cs) then replacement ++ (c :: cs).drop pattern.length
    else c :: replaceFirst pattern replacement cs

/-- JavaScript `s.replace(pattern, replacement)` with a string pattern. -/
def jsReplace (s pattern replacement : String) : String :=
  String.mk (replaceFirst pattern.data replacement.data s.data)

/-- The helper `trackUsage(c, product)`: one usage line on the console (the
insert into the database is commented out in the source). -/
def trackUsage (c : Context) (product : String) (w : World) : World :=
  { w with usage := w.usage ++
      ["Usage: " ++ c.jwtPayload.sub ++ " → " ++ product ++ " → " ++ c.req.method ++ " " ++
        c.req.path] }

/-- The call a product handler makes: the backend URL followed by the path
without the mount point, with the method, headers and body of the inbound
request. -/
def forwardCall (mount backend : String) (c : Context) : FetchCall :=
  let path := jsReplace c.req.path mount ""
  { url := backend ++ path, method := c.req.method, headers := c.req.headers,
    body := c.req.body }

/-- The body shared by the three product handlers: strip the mount point
from the path, track the usage, forward the request to the backend and hand
its response back (`new Response(response.body, response)`).  The result is
`none` when `fetch` fails and the handler throws. -/
def forward (P : Platform) (mount backend product : String) (c : Context) (w : World) :
    Option Response × World :=
  let w1 := trackUsage c product w
  let call := forwardCall mount backend c
  let w2 : World := { w1 with fetches := w1.fetches ++ [call] }
  match P.fetch call with
  | some response =>
    (some { status := response.status, headers := response.headers, body := response.body }, w2)
  | none => (none, w2)

/-- The handler of `app.all('/api/vllm/*')`. -/
def vllmHandler (P : Platform) (c : Context) (w : World) : Option Response × World :=
  forward P "/api/vllm" "https://vllm-backend.blackroad.internal" "vllm" c w

/-- The handler of `app.all('/api/identity/*')`. -/
def identityHandler (P : Platform) (c : Context) (w : World) : Option Response × World :=
  forward P "/api/identity" "https://keycloak-backend.blackroad.internal" "keycloak" c w

/-- The handler of `app.all('/api/storage/*')`. -/
def storageHandler (P : Platform) (c : Context) (w : World) : Option Response × World :=
  forward P "/api/storage" "https://minio-backend.blackroad.internal" "minio" c w

/-! ## The other handlers -/

/-- The handler of `app.get('/')`. -/
def healthHandler (P : Platform) (now : Nat) : Response :=
  jsonResponse (Json.obj [("service", Json.str "BlackRoad API Gateway"),
    ("version", Json.str "1.0.0"), ("status", Json.str "operational"),
    ("timestamp", Json.str (P.toISOString now))]) 200

/-- Reading one property while destructuring a parsed body: the outer `none`
is the TypeError raised on `null`, the inner `none` is `undefined`. -/
def Json.property (v : Json) (name : String) : Option (Option Json) :=
  match v with
  | Json.null => none
  | Json.obj fields => some (fields.lookup name)
  | _ => some none

/-- A property as `JSON.stringify` writes it: left out when `undefined`. -/
def optionalField (name : String) (v : Option Json) : List (String × Json) :=
  match v with
  | some j => [(name, j)]
  | none => []

/-- The handler of `app.post('/auth/login')`; `none` when it throws. -/
def loginHandler (P : Platform) (req : Request) : Option Response :=
  match P.parseJson req.body with
  | none => none
  | some v =>
    match v.property "email" with
    | none => none
    | some email =>
      some (jsonResponse (Json.obj [("token", Json.str "jwt_token_here"),
        ("user", Json.obj (optionalField "email" email ++ [("id", Json.str "user_id")])),
        ("products", Json.arr [Json.str "vllm", Json.str "keycloak", Json.str "minio"])]) 200)

/-- The handler of `app.post('/auth/register')`; `none` when it throws. -/
def registerHandler (P : Platform) (req : Request) : Option Response :=
  match P.parseJson req.body with
  | none => none
  | some v =>
    match v.property "email" with
    | none => none
    | some email =>
      some (jsonResponse (Json.obj [("success", Json.bool true),
        ("user", Json.obj (optionalField "email" email ++ [("id", Json.str "new_user_id")]))])
        200)

/-- The handler of `app.get('/admin/users')`: the query runs and its rows
are returned; no role is checked.  `none` when the query throws. -/
def adminUsersHandler (P : Platform) : Option Response :=
  match P.dbAll
    "SELECT id, email, plan, created_at FROM users ORDER BY created_at DESC LIMIT 100" with
  | some results => some (jsonResponse (Json.obj [("users", results)]) 200)
  | none => none

/-- The handler of `app.get('/admin/analytics')`. -/
def adminAnalyticsHandler : Response :=
  jsonResponse (Json.obj [("totalUsers", Json.num 1234), ("activeUsers", Json.num 567),
    ("mrr", Json.num 89400),
    ("products", Json.obj [
      ("vllm", Json.obj [("users", Json.num 234), ("revenue", Json.num 23400)]),
      ("keycloak", Json.obj [("users", Json.num 456), ("revenue", Json.num 45600)]),
      ("minio", Json.obj [("users", Json.num 544), ("revenue", Json.num 20400)])])]) 200

/-- The handler of `app.post('/webhooks/stripe')`. -/
def stripeHandler : Response :=
  jsonResponse (Json.obj [("received", Json.bool true)]) 200

/-! ## The route table and Hono's dispatch -/

/-- The three shapes of route pattern in the source: `'*'`, a literal path
and `'<path>/*'`. -/
inductive Pattern where
  | any
  | exact (path : String)
  | under (path : String)

/-- Hono's matching of a pattern on a request path: `'<path>/*'` matches
`<path>` itself and everything below `<path>/`. -/
def Pattern.matches : Pattern → String → Bool
  | Pattern.any, _ => true
  | Pattern.exact p, path => path == p
  | Pattern.under p, path => path == p || (p ++ "/").data.isPrefixOf path.data

/-- What is registered on a route. -/
inductive Handler where
  | logger
  | cors
  | health
  | login
  | register
  | jwt
  | rateLimit
  | vllm
  | identity
  | storage
  | adminUsers
  | adminAnalytics
  | stripe

/-- One registration: the method (`ALL` for `app.use` and `app.all`), the
pattern and the handler. -/
structure Route where
  method : String
  pattern : Pattern
  handler : Handler

/-- The registrations of the source, in the order of the file. -/
def routes : List Route :=
  [ { method := "ALL", pattern := Pattern.any, handler := Handler.logger },
    { method := "ALL", pattern := Pattern.any, handler := Handler.cors },
    { method := "GET", pattern := Pattern.exact "/", handler := Handler.health },
    { method := "POST", pattern := Pattern.exact "/auth/login", handler := Handler.login },
    { method := "POST", pattern := Pattern.exact "/auth/register", handler := Handler.register },
    { method := "ALL", pattern := Pattern.under "/api", handler := Handler.jwt },
    { method := "ALL", pattern := Pattern.under "/api", handler := Handler.rateLimit },
    { method := "ALL", pattern := Pattern.under "/api/vllm", handler := Handler.vllm },
    { method := "ALL", pattern := Pattern.under "/api/identity", handler := Handler.identity },
    { method := "ALL", pattern := Pattern.under "/api/storage", handler := Handler.storage },
    { method := "GET", pattern := Pattern.exact "/admin/users", handler := Handler.adminUsers },
    { method := "GET", pattern := Pattern.exact "/admin/analytics",
      handler := Handler.adminAnalytics },
    { method := "POST", pattern := Pattern.exact "/webhooks/stripe",
      handler := Handler.stripe } ]

/-- The handlers Hono's router returns for a method and a path, in
registration order. -/
def matched (method path : String) : List Handler :=
  (routes.filter (fun r => (r.method == "ALL" || r.method == method) && r.pattern.matches path)).map
    (fun r => r.handler)

/-- Hono's default answer when no handler responds. -/
def notFound : Response := textResponse "404 Not Found" 404

/-- Hono's default answer when a handler throws. -/
def internalServerError : Response := textResponse "Internal Server Error" 500

/-- The answer of the `jwt` middleware to a missing or invalid credential. -/
def unauthorized : Response := textResponse "Unauthorized" 401

/-- The answer of the `cors` middleware to a preflight request. -/
def preflight : Response := { status := 204, headers := [], body := Body.empty }

/-- A handler's result as the response of the request, a throw becoming
Hono's 500. -/
def settle (r : Option Response × World) : Response × World :=
  match r.1 with
  | some response => (response, r.2)
  | none => (internalServerError, r.2)

/-- Hono's composition of the matched handlers: each runs in turn; a
middleware either answers or hands on to the rest, a route handler answers;
when nobody answers the response is 404.  `payload` is what `jwtPayload`
holds in the context so far. -/
def runChain (P : Platform) (req : Request) (now : Nat) :
    List Handler → Option JwtPayload → World → Response × World
  | [], _, w => (notFound, w)
  | Handler.logger :: rest, payload, w => runChain P req now rest payload w
  | Handler.cors :: rest, payload, w =>
    if req.method == "OPTIONS" then (preflight, w) else runChain P req now rest payload w
  | Handler.jwt :: rest, _, w =>
    match P.verifyJwt req.headers with
    | some payload => runChain P req now rest (some payload) w
    | none => (unauthorized, w)
  | Handler.rateLimit :: rest, payload, w =>
    match payload with
    | none => (internalServerError, w)
    | some p =>
      match checkRateLimit { req := req, jwtPayload := p, now := now } w.kv with
      | (Outcome.next, kv) => runChain P req now rest (some p) { w with kv := kv }
      | (Outcome.respond r, kv) => (r, { w with kv := kv })
  | Handler.vllm :: _, payload, w =>
    match payload with
    | none => (internalServerError, w)
    | some p => settle (vllmHandler P { req := req, jwtPayload := p, now := now } w)
  | Handler.identity :: _, payload, w =>
    match payload with
    | none => (internalServerError, w)
    | some p => settle (identityHandler P { req := req, jwtPayload := p, now := now } w)
  | Handler.storage :: _, payload, w =>
    match payload with
    | none => (internalServerError, w)
    | some p => settle (storageHandler P { req := req, jwtPayload := p, now := now } w)
  | Handler.health :: _, _, w => (healthHandler P now, w)
  | Handler.login :: _, _, w => settle (loginHandler P req, w)
  | Handler.register :: _, _, w => settle (registerHandler P req, w)
  | Handler.adminUsers :: _, _, w => settle (adminUsersHandler P, w)
  | Handler.adminAnalytics :: _, _, w => (adminAnalyticsHandler, w)
  | Handler.stripe :: _, _, w => (stripeHandler, w)

/-- The application on one request received at instant `now`: Hono routes a
`HEAD` request as `GET` and drops the body of the answer. -/
def dispatch (P : Platform) (req : Request) (now : Nat) (w : World) : Response × World :=
  if req.method == "HEAD" then
    let r := runChain P req now (matched "GET" req.path) none w
    ({ r.1 with body := Body.empty }, r.2)
  else runChain P req now (matched req.method req.path) none w

/-! ## Overlapping executions of `checkRateLimit` -/

/-- Where one execution of `checkRateLimit` stands: before its `get`,
between its `get` and its `put` holding the value read, or done, with the
value it had read and what it did. -/
inductive Phase where
  | ready
  | holding (count : Option String)
  | finished (count : Option String) (o : Outcome)

/-- Several executions sharing the namespace. -/
structure Conc where
  kv : KV
  phases : List Phase

/-- Execution `i` takes its next step: the `get` of line 76, or the rest of
the function (lines 79 to 87) with the value it holds. -/
def stepTask (cs : List Context) (i : Nat) (s : Conc) : Conc :=
  match cs[i]?, s.phases[i]? with
  | some c, some Phase.ready =>
    { s with phases := s.phases.set i (Phase.holding (readCount c s.kv)) }
  | some c, some (Phase.holding count) =>
    let r := afterRead c count s.kv
    { kv := r.2, phases := s.phases.set i (Phase.finished count r.1) }
  | _, _ => s

/-- The executions of `cs` interleaved as the schedule says: each entry
names the execution that takes a step. -/
def runSchedule (cs : List Context) (schedule : List Nat) (s : Conc) : Conc :=
  schedule.foldl (fun s i => stepTask cs i s) s

/-- The start: nothing has run yet. -/
def Conc.start (cs : List Context) (kv : KV) : Conc :=
  { kv := kv, phases := cs.map (fun _ => Phase.ready) }

/-- Whether an execution is done and handed its request on. -/
def Phase.admitted : Phase → Bool
  | Phase.finished _ Outcome.next => true
  | _ => false

/-- The value an execution read before incrementing, once it has read. -/
def Phase.readValue : Phase → Option (Option String)
  | Phase.ready => none
  | Phase.holding count => some count
  | Phase.finished count _ => some count

/-- What it means for a handler run to be a transparent proxy of the request
of `c`: it makes exactly one more outbound call, with the method, headers
and body of the inbound request, and whatever response the backend gives to
that call comes back with the same status, headers and body. -/
def Transparent (P : Platform) (c : Context) (w : World) (result : Option Response × World) :
    Prop :=
  ∃ call : FetchCall, result.2.fetches = w.fetches ++ [call] ∧
    call.method = c.req.method ∧ call.headers = c.req.headers ∧ call.body = c.req.body ∧
    ∀ r : Response, P.fetch call = some r →
      ∃ out : Response, result.1 = some out ∧ out.status = r.status ∧
        out.headers = r.headers ∧ out.body = r.body

/-- The value a `get` returns for a counter that reads `k`: `null` for an
absent counter, the decimal text otherwise. -/
def encodeCount (k : Nat) : Option String := if k = 0 then none else some (natToString k)

/-- The number of executions that are done and were admitted. -/
def admittedCount (s : Conc) : Nat := s.phases.countP Phase.admitted

/-- What holds of overlapping executions of one subject in one window at
every moment: the counter reads some `k` that is at most the number of
admitted executions and at least one once an execution was admitted, and
every value held between a `get` and a `put` is at most that number too. -/
def ConcInv (sub : String) (w n : Nat) (s : Conc) : Prop :=
  s.phases.length = n ∧
  ∃ k, (∀ t, t / 60000 = w → s.kv.get (rateLimitKey sub t) t = encodeCount k) ∧
    k ≤ admittedCount s ∧ (1 ≤ admittedCount s → 1 ≤ k) ∧
    ∀ count, Phase.holding count ∈ s.phases → ∃ j, j ≤ admittedCount s ∧ count = encodeCount j

/-- Whether a registration is a middleware (`app.use`), as opposed to a route
handler that answers the request. -/
def Handler.isMiddleware : Handler → Bool
  | Handler.logger => true
  | Handler.cors => true
  | Handler.jwt => true
  | Handler.rateLimit => true
  | _ => false

/-- A request is unmapped when no route handler is registered for its method
and path: the router returns middleware only (a `HEAD` is looked up as a
`GET`, as `dispatch` does). -/
def unmapped (req : Request) : Bool :=
  (matched (if req.method == "HEAD" then "GET" else req.method) req.path).all
    Handler.isMiddleware

/-- The path of a request lies on one of the three product routes. -/
def onProductRoute (req : Request) : Bool :=
  (Pattern.under "/api/vllm").matches req.path ||
  (Pattern.under "/api/identity").matches req.path ||
  (Pattern.under "/api/storage").matches req.path

/-- What it means for the application to be a transparent proxy of a
request: answering it makes exactly one more outbound call, with the method,
headers and body of the request, and whatever response the backend gives to
that call, the caller gets a response with the same status and the same body.
A `HEAD` request has no response body in HTTP, so for it the backend's
response is taken to have none. -/
def TransparentDispatch (P : Platform) (req : Request) (now : Nat) (w : World) : Prop :=
  ∃ call : FetchCall, (dispatch P req now w).2.fetches = w.fetches ++ [call] ∧
    call.method = req.method ∧ call.headers = req.headers ∧ call.body = req.body ∧
    ∀ r : Response, P.fetch call = some r → (req.method = "HEAD" → r.body = Body.empty) →
      (dispatch P req now w).1.status = r.status ∧ (dispatch P req now w).1.body = r.body

/-- The schedule without overlap: execution 0 does its `get` and its `put`,
then execution 1, and so on up to execution `n - 1`. -/
def serialSchedule : Nat → List Nat
  | 0 => []
  | n + 1 => serialSchedule n ++ [n, n]

/-! ## Sample data -/

/-- A request of the given method and path with the given headers and no
body. -/
def sampleRequest (method path : String) (headers : Headers) : Request :=
  { method := method, path := path, headers := headers, body := Body.empty }

/-- The context of a `GET /api/vllm/generate` of subject `sub` at instant
`now`. -/
def sampleContext (sub : String) (now : Nat) : Context :=
  { req := sampleRequest "GET" "/api/vllm/generate" [], jwtPayload := { sub := sub }, now := now }

/-- A platform whose tokens are the subject ids themselves (the credential
`Bearer alice` verifies as subject `alice`), whose backends echo the URL they
are called with, and whose database holds one user. -/
def samplePlatform : Platform where
  verifyJwt := fun headers =>
    match headers.lookup "Authorization" with
    | some v => if "Bearer ".data.isPrefixOf v.data then some { sub := String.mk (v.data.drop 7) }
                else none
    | none => none
  fetch := fun call => some { status := 200, headers := [], body := Body.raw call.url }
  dbAll := fun _ => some (Json.arr [Json.obj [("id", Json.num 1),
    ("email", Json.str "root@blackroad.io"), ("plan", Json.str "enterprise")]])
  parseJson := fun _ => none
  toISOString := fun _ => "1970-01-01T00:00:00.000Z"

/-- The context of the same request arriving on another path. -/
def Context.withPath (c : Context) (path : String) : Context :=
  { req := { method := c.req.method, path := path, headers := c.req.headers,
             body := c.req.body },
    jwtPayload := c.jwtPayload, now := c.now }

/-- The world before any request. -/
def World.initial : World := { kv := [], fetches := [], usage := [] }

/-- The counter of subject `sub` for window `w` reads `k` at every instant of
the window; `0` stands for an absent counter. -/
def CounterAt (kv : KV) (sub : String) (w k : Nat) : Prop :=
  ∀ t, t / 60000 = w →
    kv.get (rateLimitKey sub t) t = if k = 0 then none else some (natToString k)

/-! ## Decimal text and `parseInt` are inverse on the counters -/

theorem digitChar_toNat (d : Nat) (h : d < 10) : (digitChar d).toNat = 48 + d := by
  interval_cases d <;> rfl

theorem radixDigit_digitChar (d : Nat) (h : d < 10) : radixDigit 10 (digitChar d) = some d := by
  interval_cases d <;> rfl

theorem isStrWhiteSpace_digitChar (d : Nat) (h : d < 10) :
    isStrWhiteSpace (digitChar d) = false := by
  interval_cases d <;> rfl

theorem splitSign_digitChar (d : Nat) (h : d < 10) (rest : List Char) :
    splitSign (digitChar d :: rest) = (1, digitChar d :: rest) := by
  interval_cases d <;> rfl

theorem splitRadix_digitChar_pos (d : Nat) (h : d < 10) (h0 : d ≠ 0) (rest : List Char) :
    splitRadix (digitChar d :: rest) = (10, digitChar d :: rest) := by
  interval_cases d <;> first | rfl | exact absurd rfl h0

theorem takeDigits_map_digitChar (ds : List Nat) (h : ∀ d ∈ ds, d < 10) :
    takeDigits 10 (ds.map digitChar) = ds := by
  induction ds with
  | nil => rfl
  | cons d ds ih =>
    have hd : d < 10 := h d (List.mem_cons_self d ds)
    have ht : ∀ x ∈ ds, x < 10 := fun x hx => h x (List.mem_cons_of_mem d hx)
    simp [takeDigits, radixDigit_digitChar d hd, ih ht]

/-- The digit values behind `decimalDigits`: a non-empty list of decimal
digits denoting `n`, with a leading zero only for zero itself. -/
theorem decimalDigits_spec (fuel : Nat) : ∀ (n : Nat) (acc : List Char), n < fuel →
    ∃ ds : List Nat, decimalDigits fuel n acc = ds.map digitChar ++ acc ∧
      ds ≠ [] ∧ (∀ d ∈ ds, d < 10) ∧ digitsValue 10 ds = n ∧
      (ds.head? = some 0 → ds = [0]) := by
  induction fuel with
  | zero => intro n acc h; omega
  | succ fuel ih =>
    intro n acc h
    by_cases hn : n < 10
    · refine ⟨[n], ?_, by simp, ?_, ?_, ?_⟩
      · simp [decimalDigits, hn]
      · intro d hd
        simp at hd
        omega
      · simp [digitsValue]
      · intro h0
        simp at h0
        simp [h0]
    · have hlt : n / 10 < fuel := by omega
      obtain ⟨ds, hds, hne, hall, hval, hhead⟩ := ih (n / 10) (digitChar (n % 10) :: acc) hlt
      refine ⟨ds ++ [n % 10], ?_, by simp, ?_, ?_, ?_⟩
      · simp [decimalDigits, hn, hds]
      · intro d hd
        rcases List.mem_append.mp hd with hd | hd
        · exact hall d hd
        · simp at hd
          omega
      · have : digitsValue 10 (ds ++ [n % 10]) = digitsValue 10 ds * 10 + n % 10 := by
          simp [digitsValue, List.foldl_append]
        rw [this, hval]
        omega
      · intro h0
        exfalso
        cases ds with
        | nil => exact hne rfl
        | cons d ds =>
          simp at h0
          have := hhead (by simp [h0])
          simp at this
          have hz : digitsValue 10 (d :: ds) = 0 := by
            rw [this.1, this.2]
            rfl
          omega

theorem parseInt_natToString (n : Nat) : parseInt (natToString n) = some (Int.ofNat n) := by
  obtain ⟨ds, hds, hne, hall, hval, hhead⟩ := decimalDigits_spec (n + 1) n [] (Nat.lt_succ_self n)
  cases ds with
  | nil => exact absurd rfl hne
  | cons d rest =>
    have hd : d < 10 := hall d (List.mem_cons_self d rest)
    have hdata : (natToString n).data = digitChar d :: rest.map digitChar := by
      simp [natToString, hds]
    have htake : takeDigits 10 (digitChar d :: rest.map digitChar) = d :: rest := by
      simpa using takeDigits_map_digitChar (d :: rest) hall
    have hradix : splitRadix (digitChar d :: rest.map digitChar)
        = (10, digitChar d :: rest.map digitChar) := by
      by_cases h0 : d = 0
      · have := hhead (by simp [h0])
        simp at this
        rw [this.1, this.2]
        rfl
      · exact splitRadix_digitChar_pos d hd h0 _
    unfold parseInt
    rw [hdata]
    simp only [List.dropWhile, isStrWhiteSpace_digitChar d hd, splitSign_digitChar d hd,
      hradix, htake, hval]
    simp

/-! ## The counter of one subject in one window, run sequentially -/

theorem natToString_data_ne_nil (n : Nat) : (natToString n).data ≠ [] := by
  obtain ⟨ds, hds, hne, -, -, -⟩ := decimalDigits_spec (n + 1) n [] (Nat.lt_succ_self n)
  cases ds with
  | nil => exact absurd rfl hne
  | cons d rest => simp [natToString, hds]

theorem overLimit_natToString (k : Nat) :
    overLimit (some (natToString k)) = decide ((1000 : Int) ≤ Int.ofNat k) := by
  have hne := natToString_data_ne_nil k
  simp [overLimit, truthy, parseInt_natToString, limit, hne]

theorem nextCount_natToString (k : Nat) :
    nextCount (some (natToString k)) = natToString (k + 1) := by
  have hne := natToString_data_ne_nil k
  simp only [nextCount, truthy, parseInt_natToString, Option.map]
  simp [hne]
  rfl

theorem rateLimitKey_window (sub : String) (t u : Nat) (h : t / 60000 = u / 60000) :
    rateLimitKey sub t = rateLimitKey sub u := by
  simp [rateLimitKey, windowIndex, h]

theorem KV.get_put_same (kv : KV) (key value : String) (ttl now t : Nat)
    (h : t < now + ttl * 1000) : (kv.put key value ttl now).get key t = some value := by
  simp [KV.get, KV.put, h]

theorem checkRateLimit_under (c : Context) (kv : KV) (sub : String) (w k : Nat)
    (hk : k < 1000) (hc : c.jwtPayload.sub = sub ∧ c.now / 60000 = w)
    (hinv : CounterAt kv sub w k) :
    (checkRateLimit c kv).1 = Outcome.next ∧ CounterAt (checkRateLimit c kv).2 sub w (k + 1) := by
  have hread : readCount c kv = if k = 0 then none else some (natToString k) := by
    unfold readCount
    rw [hc.1]
    exact hinv c.now hc.2
  have hover : overLimit (readCount c kv) = false := by
    rw [hread]
    by_cases h0 : k = 0
    · simp [h0, overLimit]
    · simp only [h0, if_false, overLimit_natToString]
      simp
      omega
  have hnext : nextCount (readCount c kv) = natToString (k + 1) := by
    rw [hread]
    by_cases h0 : k = 0
    · subst h0
      decide
    · simp only [h0, if_false, nextCount_natToString]
  refine ⟨by simp [checkRateLimit, afterRead, hover], ?_⟩
  intro t ht
  have hkey : rateLimitKey sub t = rateLimitKey c.jwtPayload.sub c.now := by
    rw [hc.1]
    exact rateLimitKey_window sub t c.now (by rw [ht, hc.2])
  have hlt : t < c.now + 60 * 1000 := by
    have := hc.2
    omega
  simp only [checkRateLimit, afterRead, hover, hnext, hkey]
  simpa using KV.get_put_same kv _ (natToString (k + 1)) 60 c.now t hlt

theorem checkRateLimit_full (c : Context) (kv : KV) (sub : String) (w k : Nat)
    (hk : 1000 ≤ k) (hc : c.jwtPayload.sub = sub ∧ c.now / 60000 = w)
    (hinv : CounterAt kv sub w k) :
    checkRateLimit c kv = (Outcome.respond rateLimitExceeded, kv) := by
  have hread : readCount c kv = some (natToString k) := by
    unfold readCount
    rw [hc.1, hinv c.now hc.2]
    have : k ≠ 0 := by omega
    simp [this]
  have hover : overLimit (readCount c kv) = true := by
    rw [hread, overLimit_natToString]
    simp
    omega
  simp [checkRateLimit, afterRead, hover]

/-- Sequential requests of one subject in one window, from a counter that
reads `k`: the first `1000 - k` are handed on, the others are answered with
the rate-limit response, and the counter ends at `min (k + n) 1000`. -/
theorem runSequential_spec (sub : String) (w : Nat) :
    ∀ (cs : List Context) (k : Nat) (kv : KV), k ≤ 1000 → CounterAt kv sub w k →
      (∀ c ∈ cs, c.jwtPayload.sub = sub ∧ c.now / 60000 = w) →
      (runSequential cs kv).1 =
          List.replicate (min cs.length (1000 - k)) Outcome.next ++
          List.replicate (cs.length - min cs.length (1000 - k))
            (Outcome.respond rateLimitExceeded) ∧
        CounterAt (runSequential cs kv).2 sub w (min (k + cs.length) 1000) := by
  intro cs
  induction cs with
  | nil =>
    intro k kv hk hinv _
    have : min k 1000 = k := by omega
    simpa [runSequential, this] using hinv
  | cons c rest ih =>
    intro k kv hk hinv hcs
    have hc := hcs c (List.mem_cons_self c rest)
    have hrest : ∀ x ∈ rest, x.jwtPayload.sub = sub ∧ x.now / 60000 = w :=
      fun x hx => hcs x (List.mem_cons_of_mem c hx)
    by_cases hlt : k < 1000
    · obtain ⟨h1, h2⟩ := checkRateLimit_under c kv sub w k hlt hc hinv
      obtain ⟨ih1, ih2⟩ := ih (k + 1) (checkRateLimit c kv).2 (by omega) h2 hrest
      have e1 : min (rest.length + 1) (1000 - k) = min rest.length (1000 - (k + 1)) + 1 := by
        omega
      have e2 : rest.length + 1 - (min rest.length (1000 - (k + 1)) + 1)
          = rest.length - min rest.length (1000 - (k + 1)) := by omega
      have e3 : min (k + (rest.length + 1)) 1000 = min (k + 1 + rest.length) 1000 := by omega
      refine ⟨?_, ?_⟩
      · simp only [runSequential, List.length_cons, h1, ih1, e1, e2]
        rfl
      · simp only [runSequential, List.length_cons, e3]
        exact ih2
    · have hk1000 : k = 1000 := by omega
      have hfull := checkRateLimit_full c kv sub w k (by omega) hc hinv
      obtain ⟨ih1, ih2⟩ := ih k kv hk (by simpa using hinv) hrest
      have e1 : min (rest.length + 1) (1000 - k) = 0 := by omega
      have e0 : min rest.length (1000 - k) = 0 := by omega
      have e3 : min (k + (rest.length + 1)) 1000 = min (k + rest.length) 1000 := by omega
      refine ⟨?_, ?_⟩
      · simp only [runSequential, List.length_cons, hfull, ih1, e1, e0]
        simp [List.replicate_succ]
      · simp only [runSequential, List.length_cons, hfull, e3]
        exact ih2

/-- C1: n sequential requests of one subject inside one window, from a store
with no counter for the window: exactly min(n, 1000) are handed on to `next`,
the other n - min(n, 1000) get status 429; request number i (from 0) is
admitted exactly when i < 1000, so the 1000th passes and the 1001st is
rejected, and never more than 1000 are admitted. -/
theorem checkRateLimit_admits_exactly_limit (sub : String) (w : Nat) (cs : List Context)
    (kv : KV)
    (hcs : ∀ c ∈ cs, c.jwtPayload.sub = sub ∧ c.now / 60000 = w)
    (hfresh : ∀ t, t / 60000 = w → kv.get (rateLimitKey sub t) t = none) :
    ((runSequential cs kv).1.filter Outcome.admitted).length = min cs.length 1000 ∧
    ((runSequential cs kv).1.filter (fun o => o.hasStatus 429)).length
      = cs.length - min cs.length 1000 ∧
    (∀ i, i < cs.length → i < 1000 → (runSequential cs kv).1[i]? = some Outcome.next) ∧
    (∀ i, i < cs.length → 1000 ≤ i →
      ∃ r, (runSequential cs kv).1[i]? = some (Outcome.respond r) ∧ r.status = 429) ∧
    ((runSequential cs kv).1.filter Outcome.admitted).length ≤ 1000 := by
  have hinv : CounterAt kv sub w 0 := by
    intro t ht
    simpa using hfresh t ht
  obtain ⟨hos, -⟩ := runSequential_spec sub w cs 0 kv (by omega) hinv hcs
  simp only [Nat.sub_zero] at hos
  have hadm : ((runSequential cs kv).1.filter Outcome.admitted).length = min cs.length 1000 := by
    rw [hos]
    simp [List.filter_append, List.filter_replicate, Outcome.admitted]
  refine ⟨hadm, ?_, ?_, ?_, ?_⟩
  · rw [hos]
    simp [List.filter_append, List.filter_replicate, Outcome.hasStatus, rateLimitExceeded,
      jsonResponse]
  · intro i hi hi'
    rw [hos, List.getElem?_append_left (by simp; omega)]
    simp [List.getElem?_replicate]
    omega
  · intro i hi hi'
    refine ⟨rateLimitExceeded, ?_, rfl⟩
    rw [hos, List.getElem?_append_right (by simp; omega)]
    simp [List.getElem?_replicate]
    omega
  · rw [hadm]
    omega

theorem checkRateLimit_admits_exactly_limit_witness :
    ((runSequential (List.replicate 1002 (sampleContext "alice" 0)) []).1.filter
        Outcome.admitted).length = 1000 ∧
    ((runSequential (List.replicate 1002 (sampleContext "alice" 0)) []).1.filter
        (fun o => o.hasStatus 429)).length = 2 := by
  have h := checkRateLimit_admits_exactly_limit "alice" 0
    (List.replicate 1002 (sampleContext "alice" 0)) []
    (fun c hc => by rw [List.eq_of_mem_replicate hc]; decide) (fun _ _ => rfl)
  rw [List.length_replicate] at h
  exact ⟨h.1, h.2.1⟩

/-! ## C2: a rejected request leaves the counter alone -/

theorem sample_replicate_window (n : Nat) :
    ∀ c ∈ List.replicate n (sampleContext "alice" 0),
      c.jwtPayload.sub = "alice" ∧ c.now / 60000 = 0 := by
  intro c hc
  rw [List.eq_of_mem_replicate hc]
  decide

theorem counterAt_nil (sub : String) (w : Nat) : CounterAt [] sub w 0 := by
  intro t _
  rfl

/-- C2 fails on the code: after 1005 sequential requests of one subject in
one window the stored counter reads 1000, not 1005. -/
theorem rejected_requests_are_not_counted :
    (runSequential (List.replicate 1005 (sampleContext "alice" 0)) []).2.get
        (rateLimitKey "alice" 0) 0 = some "1000" ∧
    (runSequential (List.replicate 1005 (sampleContext "alice" 0)) []).2.get
        (rateLimitKey "alice" 0) 0 ≠ some (natToString (1000 + 5)) := by
  have h := (runSequential_spec "alice" 0 (List.replicate 1005 (sampleContext "alice" 0)) 0 []
    (by omega) (counterAt_nil "alice" 0) (sample_replicate_window 1005)).2 0 (by decide)
  rw [List.length_replicate] at h
  have h1000 : (runSequential (List.replicate 1005 (sampleContext "alice" 0)) []).2.get
      (rateLimitKey "alice" 0) 0 = some "1000" := by
    rw [h]
    decide
  refine ⟨h1000, ?_⟩
  rw [h1000]
  decide

/-- C2 as amended: a request that `checkRateLimit` rejects leaves the store
as it was, and after limit + k sequential requests of one subject in one
window (from an absent counter) the counter of the window reads the limit,
1000, at every instant of the window. -/
theorem rejection_leaves_counter_at_limit (sub : String) (w k : Nat) (cs : List Context)
    (kv : KV)
    (hcs : ∀ c ∈ cs, c.jwtPayload.sub = sub ∧ c.now / 60000 = w)
    (hfresh : ∀ t, t / 60000 = w → kv.get (rateLimitKey sub t) t = none)
    (hlen : cs.length = 1000 + k) :
    (∀ t, t / 60000 = w → (runSequential cs kv).2.get (rateLimitKey sub t) t = some "1000") ∧
    (∀ (c : Context) (store : KV), (checkRateLimit c store).1.admitted = false →
      (checkRateLimit c store).2 = store) := by
  have hinv : CounterAt kv sub w 0 := by
    intro t ht
    simpa using hfresh t ht
  obtain ⟨-, hend⟩ := runSequential_spec sub w cs 0 kv (by omega) hinv hcs
  have hmin : min (0 + cs.length) 1000 = 1000 := by omega
  rw [hmin] at hend
  refine ⟨?_, ?_⟩
  · intro t ht
    rw [hend t ht]
    decide
  · intro c store h
    unfold checkRateLimit afterRead at h ⊢
    by_cases hover : overLimit (readCount c store) = true
    · simp [hover]
    · simp [hover, Outcome.admitted] at h

theorem rejection_leaves_counter_at_limit_witness :
    (runSequential (List.replicate 1005 (sampleContext "alice" 0)) []).2.get
        (rateLimitKey "alice" 59999) 59999 = some "1000" :=
  (rejection_leaves_counter_at_limit "alice" 0 5 (List.replicate 1005 (sampleContext "alice" 0)) []
    (fun c hc => by rw [List.eq_of_mem_replicate hc]; decide) (fun _ _ => rfl)
    (by rw [List.length_replicate])).1 59999 (by decide)

/-! ## C4: the counter key determines the subject and the window -/

theorem natToString_injective (a b : Nat) (h : natToString a = natToString b) : a = b := by
  have ha := parseInt_natToString a
  rw [h, parseInt_natToString b] at ha
  simpa using ha.symm

theorem colon_not_mem_natToString (n : Nat) : ':' ∉ (natToString n).data := by
  obtain ⟨ds, hds, -, hall, -, -⟩ := decimalDigits_spec (n + 1) n [] (Nat.lt_succ_self n)
  intro hmem
  simp only [natToString, hds, List.append_nil, List.mem_map] at hmem
  obtain ⟨d, hd, hc⟩ := hmem
  have hlt := hall d hd
  have := digitChar_toNat d hlt
  rw [hc] at this
  have h58 : (':' : Char).toNat = 58 := rfl
  omega

/-- Two texts split at their last occurrence of a separator agree part by
part. -/
theorem append_sep_inj (c : Char) (l1 l2 r1 r2 : List Char) (h1 : c ∉ r1) (h2 : c ∉ r2)
    (h : l1 ++ c :: r1 = l2 ++ c :: r2) : l1 = l2 ∧ r1 = r2 := by
  rcases List.append_eq_append_iff.mp h with ⟨m, hm1, hm2⟩ | ⟨m, hm1, hm2⟩
  · cases m with
    | nil => simp at hm1 hm2; exact ⟨hm1.symm, hm2⟩
    | cons x m =>
      exfalso
      simp at hm2
      apply h1
      rw [hm2.2]
      simp
  · cases m with
    | nil => simp at hm1 hm2; exact ⟨hm1, hm2.symm⟩
    | cons x m =>
      exfalso
      simp at hm2
      apply h2
      rw [hm2.2]
      simp

theorem windowIndex_small (t : Nat) (h : t < 2147483648 * 60000) :
    windowIndex t = Int.ofNat (t / 60000) := by
  have hq : t / 60000 < 2147483648 := by omega
  unfold windowIndex toInt32
  have : (Int.ofNat (t / 60000) : Int) = ((t / 60000 : Nat) : Int) := rfl
  rw [this]
  omega

theorem rateLimitKey_small (u : String) (t : Nat) (h : t < 2147483648 * 60000) :
    (rateLimitKey u t).data = "rate_limit:".data ++ (u.data ++ ':' :: (natToString (t / 60000)).data) := by
  unfold rateLimitKey
  rw [windowIndex_small t h]
  simp [numToString, String.data_append]

/-- C4: for instants below 2^31 minutes, two counter keys are equal exactly
when the subjects are equal and the instants fall in the same one-minute
window, whatever characters the subject ids contain. -/
theorem rateLimitKey_eq_iff (u1 u2 : String) (t1 t2 : Nat)
    (h1 : t1 < 2147483648 * 60000) (h2 : t2 < 2147483648 * 60000) :
    rateLimitKey u1 t1 = rateLimitKey u2 t2 ↔ u1 = u2 ∧ t1 / 60000 = t2 / 60000 := by
  constructor
  · intro h
    have hd : (rateLimitKey u1 t1).data = (rateLimitKey u2 t2).data := by rw [h]
    rw [rateLimitKey_small u1 t1 h1, rateLimitKey_small u2 t2 h2] at hd
    have hd2 := List.append_cancel_left hd
    obtain ⟨hu, hn⟩ := append_sep_inj ':' _ _ _ _ (colon_not_mem_natToString _)
      (colon_not_mem_natToString _) hd2
    refine ⟨String.ext hu, natToString_injective _ _ (String.ext hn)⟩
  · rintro ⟨hu, hw⟩
    rw [hu]
    exact rateLimitKey_window u2 t1 t2 hw

theorem rateLimitKey_eq_iff_witness :
    (rateLimitKey "a:1" 60000 = rateLimitKey "a" 660000 ↔
      "a:1" = "a" ∧ 60000 / 60000 = 660000 / 60000) :=
  rateLimitKey_eq_iff "a:1" "a" 60000 660000 (by decide) (by decide)

/-! ## C5, C6: what the product handlers send and return -/

theorem replaceFirst_mount (mount rest : List Char) : replaceFirst mount [] (mount ++ rest) = rest := by
  cases mount with
  | nil =>
    cases rest with
    | nil => simp [replaceFirst]
    | cons c cs => simp [replaceFirst]
  | cons p ps =>
    have hpre : (p :: ps).isPrefixOf (p :: (ps ++ rest)) = true := by
      rw [List.isPrefixOf_iff_prefix]
      exact List.prefix_append (p :: ps) rest
    have hdrop : List.drop (p :: ps).length (p :: (ps ++ rest)) = rest := by
      simp
    show replaceFirst (p :: ps) [] (p :: (ps ++ rest)) = rest
    rw [replaceFirst, if_pos hpre, hdrop]
    rfl

theorem jsReplace_mount (mount rest : String) : jsReplace (mount ++ rest) mount "" = rest := by
  unfold jsReplace
  have : ("" : String).data = [] := rfl
  rw [String.data_append, this, replaceFirst_mount]

/-- The world a product handler leaves, whatever the backend answers: one
more call, one more usage line, the namespace untouched. -/
theorem forward_world (P : Platform) (mount backend product : String) (c : Context) (w : World) :
    (forward P mount backend product c w).2.kv = w.kv ∧
    (forward P mount backend product c w).2.fetches = w.fetches ++ [forwardCall mount backend c] ∧
    (forward P mount backend product c w).2.usage = (trackUsage c product w).usage := by
  unfold forward
  dsimp only
  split <;> exact ⟨rfl, rfl, rfl⟩

/-- C5: on a path made of the mount point followed by `rest`, each product
handler fetches exactly the backend base URL followed by `rest`; only the
leading occurrence of the mount point is removed. -/
theorem product_route_strips_mount (P : Platform) (c : Context) (w : World) (rest : String) :
    ((vllmHandler P (c.withPath ("/api/vllm" ++ rest)) w).2.fetches.map (fun call => call.url)
      = w.fetches.map (fun call => call.url) ++ ["https://vllm-backend.blackroad.internal" ++ rest]) ∧
    ((identityHandler P (c.withPath ("/api/identity" ++ rest)) w).2.fetches.map
        (fun call => call.url)
      = w.fetches.map (fun call => call.url) ++
        ["https://keycloak-backend.blackroad.internal" ++ rest]) ∧
    ((storageHandler P (c.withPath ("/api/storage" ++ rest)) w).2.fetches.map
        (fun call => call.url)
      = w.fetches.map (fun call => call.url) ++
        ["https://minio-backend.blackroad.internal" ++ rest]) := by
  refine ⟨?_, ?_, ?_⟩
  · simp only [vllmHandler, (forward_world _ _ _ _ _ _).2.1, forwardCall, Context.withPath,
      jsReplace_mount, List.map_append, List.map_cons, List.map_nil]
  · simp only [identityHandler, (forward_world _ _ _ _ _ _).2.1, forwardCall, Context.withPath,
      jsReplace_mount, List.map_append, List.map_cons, List.map_nil]
  · simp only [storageHandler, (forward_world _ _ _ _ _ _).2.1, forwardCall, Context.withPath,
      jsReplace_mount, List.map_append, List.map_cons, List.map_nil]

/-- C6 fails on the code: a request that reaches the vLLM route with
`Authorization: Bearer alice` is fetched from the backend with that very
header, and two requests that differ only in the value of the header give
different outbound calls. -/
theorem authorization_header_reaches_backend :
    ((dispatch samplePlatform
        (sampleRequest "GET" "/api/vllm/generate" [("Authorization", "Bearer alice")]) 0
        World.initial).2.fetches.map (fun call => call.headers.lookup "Authorization")
      = [some "Bearer alice"]) ∧
    ((vllmHandler samplePlatform
        { req := sampleRequest "GET" "/api/vllm/generate" [("Authorization", "Bearer one")],
          jwtPayload := { sub := "alice" }, now := 0 } World.initial).2.fetches.map
        (fun call => call.headers)
      ≠ (vllmHandler samplePlatform
        { req := sampleRequest "GET" "/api/vllm/generate" [("Authorization", "Bearer two")],
          jwtPayload := { sub := "alice" }, now := 0 } World.initial).2.fetches.map
        (fun call => call.headers)) := by
  constructor <;> decide

/-- C6 as amended: every product handler passes the headers of the inbound
request to the backend as they are, the Authorization header included. -/
theorem product_routes_forward_all_headers (P : Platform) (c : Context) (w : World) :
    ((vllmHandler P c w).2.fetches.map (fun call => call.headers)
      = w.fetches.map (fun call => call.headers) ++ [c.req.headers]) ∧
    ((identityHandler P c w).2.fetches.map (fun call => call.headers)
      = w.fetches.map (fun call => call.headers) ++ [c.req.headers]) ∧
    ((storageHandler P c w).2.fetches.map (fun call => call.headers)
      = w.fetches.map (fun call => call.headers) ++ [c.req.headers]) := by
  refine ⟨?_, ?_, ?_⟩
  · simp only [vllmHandler, (forward_world _ _ _ _ _ _).2.1, forwardCall, List.map_append,
      List.map_cons, List.map_nil]
  · simp only [identityHandler, (forward_world _ _ _ _ _ _).2.1, forwardCall, List.map_append,
      List.map_cons, List.map_nil]
  · simp only [storageHandler, (forward_world _ _ _ _ _ _).2.1, forwardCall, List.map_append,
      List.map_cons, List.map_nil]

theorem forward_transparent (P : Platform) (mount backend product : String) (c : Context)
    (w : World) : Transparent P c w (forward P mount backend product c w) := by
  refine ⟨forwardCall mount backend c, (forward_world P mount backend product c w).2.1, rfl, rfl,
    rfl, ?_⟩
  intro r hr
  refine ⟨{ status := r.status, headers := r.headers, body := r.body }, ?_, rfl, rfl, rfl⟩
  unfold forward
  dsimp only
  rw [hr]

/-- Each product handler, taken alone, is a transparent proxy: the outbound
call has the method, the headers and the body of the inbound request, and the
handler returns what the backend answers. -/
theorem handlers_transparent (P : Platform) (c : Context) (w : World) :
    Transparent P c w (vllmHandler P c w) ∧
    Transparent P c w (identityHandler P c w) ∧
    Transparent P c w (storageHandler P c w) :=
  ⟨forward_transparent P _ _ _ c w, forward_transparent P _ _ _ c w,
    forward_transparent P _ _ _ c w⟩

/-- C7, the code at the failing input: a `GET` of either admin path with no
header at all is answered with status 200 and the data. -/
theorem admin_routes_answer_without_credential :
    (dispatch samplePlatform (sampleRequest "GET" "/admin/users" []) 0 World.initial).1.status
      = 200 ∧
    (dispatch samplePlatform (sampleRequest "GET" "/admin/users" []) 0 World.initial).1.body
      = Body.json (Json.obj [("users", Json.arr [Json.obj [("id", Json.num 1),
          ("email", Json.str "root@blackroad.io"), ("plan", Json.str "enterprise")]])]) ∧
    (dispatch samplePlatform (sampleRequest "GET" "/admin/analytics" []) 0 World.initial).1
      = adminAnalyticsHandler ∧
    adminAnalyticsHandler.status = 200 := by
  refine ⟨by decide, ?_, ?_, rfl⟩
  · rfl
  · rfl

/-! ## C9: what a rejection carries -/

/-- C9 fails on the code: with the counter of the window at 1000 the request
is rejected with status 429 and the response has no `Retry-After` header,
its only header being the content type. -/
theorem rejection_has_no_retry_after :
    ∃ r : Response,
      (checkRateLimit (sampleContext "alice" 0)
        [{ key := "rate_limit:alice:0", value := "1000", expiresAt := 60000 }]).1
        = Outcome.respond r ∧
      r.status = 429 ∧ r.headers.lookup "Retry-After" = none ∧
      r.headers.map (fun h => h.1) = ["Content-Type"] :=
  ⟨rateLimitExceeded, by rfl, rfl, by decide, by decide⟩

/-- C9 as amended: every response by which `checkRateLimit` rejects a request
has status 429 and the JSON body with the error text, and the content type
as its only header. -/
theorem rejection_is_429_json (c : Context) (kv : KV) (r : Response)
    (h : (checkRateLimit c kv).1 = Outcome.respond r) :
    r.status = 429 ∧
    r.body = Body.json (Json.obj [("error", Json.str "Rate limit exceeded")]) ∧
    r.headers = [("Content-Type", "application/json")] := by
  unfold checkRateLimit afterRead at h
  by_cases hover : overLimit (readCount c kv) = true
  · simp only [hover, if_true] at h
    injection h with h
    subst h
    exact ⟨rfl, rfl, rfl⟩
  · simp [hover] at h

theorem rejection_is_429_json_witness :
    rateLimitExceeded.status = 429 ∧
    rateLimitExceeded.body = Body.json (Json.obj [("error", Json.str "Rate limit exceeded")]) ∧
    rateLimitExceeded.headers = [("Content-Type", "application/json")] :=
  rejection_is_429_json (sampleContext "alice" 0)
    [{ key := "rate_limit:alice:0", value := "1000", expiresAt := 60000 }] rateLimitExceeded
    (by rfl)

/-! ## C8: paths outside the product routes -/

/-- A chain without product handler makes no outbound call and logs no
usage. -/
theorem runChain_frame (P : Platform) (req : Request) (now : Nat) :
    ∀ (hs : List Handler) (payload : Option JwtPayload) (w : World),
      Handler.vllm ∉ hs → Handler.identity ∉ hs → Handler.storage ∉ hs →
      (runChain P req now hs payload w).2.fetches = w.fetches ∧
      (runChain P req now hs payload w).2.usage = w.usage := by
  intro hs
  induction hs with
  | nil => intro payload w _ _ _; exact ⟨rfl, rfl⟩
  | cons h rest ih =>
    intro payload w hv hi hs
    have hv2 : Handler.vllm ∉ rest := fun hh => hv (List.mem_cons_of_mem h hh)
    have hi2 : Handler.identity ∉ rest := fun hh => hi (List.mem_cons_of_mem h hh)
    have hs2 : Handler.storage ∉ rest := fun hh => hs (List.mem_cons_of_mem h hh)
    cases h with
    | logger => simpa only [runChain] using ih payload w hv2 hi2 hs2
    | cors =>
      simp only [runChain]
      split
      · exact ⟨rfl, rfl⟩
      · exact ih payload w hv2 hi2 hs2
    | jwt =>
      simp only [runChain]
      split
      · exact ih _ w hv2 hi2 hs2
      · exact ⟨rfl, rfl⟩
    | rateLimit =>
      cases payload with
      | none => exact ⟨rfl, rfl⟩
      | some p =>
        simp only [runChain]
        split
        · exact ih _ _ hv2 hi2 hs2
        · exact ⟨rfl, rfl⟩
    | vllm => exact absurd (List.mem_cons_self _ _) hv
    | identity => exact absurd (List.mem_cons_self _ _) hi
    | storage => exact absurd (List.mem_cons_self _ _) hs
    | health => exact ⟨rfl, rfl⟩
    | login => simp only [runChain, settle]; split <;> exact ⟨rfl, rfl⟩
    | register => simp only [runChain, settle]; split <;> exact ⟨rfl, rfl⟩
    | adminUsers => simp only [runChain, settle]; split <;> exact ⟨rfl, rfl⟩
    | adminAnalytics => exact ⟨rfl, rfl⟩
    | stripe => exact ⟨rfl, rfl⟩

/-- The router returns a product handler only for a path its pattern
matches. -/
theorem matched_product (method path : String) :
    (Handler.vllm ∈ matched method path → (Pattern.under "/api/vllm").matches path = true) ∧
    (Handler.identity ∈ matched method path →
      (Pattern.under "/api/identity").matches path = true) ∧
    (Handler.storage ∈ matched method path →
      (Pattern.under "/api/storage").matches path = true) := by
  refine ⟨?_, ?_, ?_⟩ <;>
  · intro h
    simp only [matched, List.mem_map, List.mem_filter] at h
    obtain ⟨r, ⟨hr, hcond⟩, hh⟩ := h
    simp only [routes, List.mem_cons, List.mem_singleton, List.not_mem_nil, or_false] at hr
    rcases hr with hr | hr | hr | hr | hr | hr | hr | hr | hr | hr | hr | hr | hr <;>
      (subst hr; simp at hh <;> simpa using hcond)

/-- The middleware registrations among the routes. -/
theorem routes_middleware :
    routes.filter (fun r => r.handler.isMiddleware) =
      [ { method := "ALL", pattern := Pattern.any, handler := Handler.logger },
        { method := "ALL", pattern := Pattern.any, handler := Handler.cors },
        { method := "ALL", pattern := Pattern.under "/api", handler := Handler.jwt },
        { method := "ALL", pattern := Pattern.under "/api", handler := Handler.rateLimit } ] := rfl

/-- When the router returns middleware only, it returns the logger, the cors
middleware and, below `/api`, the jwt middleware and the rate limiter. -/
theorem matched_middleware_only (method path : String)
    (h : (matched method path).all Handler.isMiddleware = true) :
    matched method path =
      if (Pattern.under "/api").matches path
      then [Handler.logger, Handler.cors, Handler.jwt, Handler.rateLimit]
      else [Handler.logger, Handler.cors] := by
  have hall : ∀ a ∈ matched method path, Handler.isMiddleware a = true := by
    simpa [List.all_eq_true] using h
  have h1 : matched method path = (matched method path).filter Handler.isMiddleware :=
    (List.filter_eq_self.mpr hall).symm
  have h2 : (matched method path).filter Handler.isMiddleware =
      ((routes.filter (fun r => r.handler.isMiddleware)).filter
        (fun r => (r.method == "ALL" || r.method == method) && r.pattern.matches path)).map
        (fun r => r.handler) := by
    simp only [matched, List.filter_map, List.filter_filter]
    congr 1
    apply List.filter_congr
    intro r _
    simp [Function.comp, Bool.and_comm]
  rw [h1, h2, routes_middleware]
  have eany : Pattern.any.matches path = true := rfl
  by_cases hapi : (Pattern.under "/api").matches path = true
  · simp [List.filter, eany, hapi]
  · have hapi2 : (Pattern.under "/api").matches path = false := by simpa using hapi
    simp [List.filter, eany, hapi2]

/-- Every outcome of `checkRateLimit` is the hand-over or the rate-limit
response. -/
theorem checkRateLimit_outcome (c : Context) (kv : KV) :
    ((checkRateLimit c kv).1 = Outcome.next) ∨
    ((checkRateLimit c kv).1 = Outcome.respond rateLimitExceeded) := by
  unfold checkRateLimit afterRead
  by_cases hover : overLimit (readCount c kv) = true
  · right
    simp [hover]
  · left
    simp [hover]

/-- The chain of the two global middlewares on a request that is not a
preflight ends in Hono's 404. -/
theorem runChain_global (P : Platform) (req : Request) (now : Nat) (w : World)
    (hopt : req.method ≠ "OPTIONS") :
    (runChain P req now [Handler.logger, Handler.cors] none w).1 = notFound := by
  have hopt2 : (req.method == "OPTIONS") = false := by simpa using hopt
  simp only [runChain, hopt2, Bool.false_eq_true, if_false]

/-- The chain of the four middlewares on a request that is not a preflight:
401 without a verified credential, else the rate limiter's response or
Hono's 404. -/
theorem runChain_api (P : Platform) (req : Request) (now : Nat) (w : World)
    (hopt : req.method ≠ "OPTIONS") :
    (P.verifyJwt req.headers = none →
      (runChain P req now [Handler.logger, Handler.cors, Handler.jwt, Handler.rateLimit]
        none w).1 = unauthorized) ∧
    (∀ p, P.verifyJwt req.headers = some p →
      ((checkRateLimit { req := req, jwtPayload := p, now := now } w.kv).1.admitted = true →
        (runChain P req now [Handler.logger, Handler.cors, Handler.jwt, Handler.rateLimit]
          none w).1 = notFound) ∧
      ((checkRateLimit { req := req, jwtPayload := p, now := now } w.kv).1.admitted = false →
        (runChain P req now [Handler.logger, Handler.cors, Handler.jwt, Handler.rateLimit]
          none w).1 = rateLimitExceeded)) := by
  have hopt2 : (req.method == "OPTIONS") = false := by simpa using hopt
  refine ⟨?_, ?_⟩
  · intro hjwt
    simp only [runChain, hopt2, hjwt, Bool.false_eq_true, if_false]
  · intro p hjwt
    have hout := checkRateLimit_outcome { req := req, jwtPayload := p, now := now } w.kv
    simp only [runChain, hopt2, hjwt, Bool.false_eq_true, if_false]
    generalize checkRateLimit { req := req, jwtPayload := p, now := now } w.kv = res at hout
    obtain ⟨o, kv⟩ := res
    simp only at hout
    rcases hout with hout | hout
    · subst hout
      exact ⟨fun _ => rfl, fun h => by simp [Outcome.admitted] at h⟩
    · subst hout
      exact ⟨fun h => by simp [Outcome.admitted] at h, fun _ => rfl⟩

/-- The router returns the logger and the cors middleware first, for every
method and path. -/
theorem matched_starts_global (method path : String) :
    ∃ rest, matched method path = Handler.logger :: Handler.cors :: rest := by
  refine ⟨(((routes.drop 2).filter (fun (r : Route) =>
    (r.method == "ALL" || r.method == method) && r.pattern.matches path)).map
    (fun (r : Route) => r.handler)), ?_⟩
  rfl

/-- C8 fails on the code: `/api/unknown/x` matches no route, yet a request
for it is answered with 401 when it carries no credential, with 429 when its
subject is over the limit, and an `OPTIONS` request for it is answered by the
cors middleware with 204; none of the three is a 404. -/
theorem unmapped_path_not_always_404 :
    ((Pattern.under "/api/vllm").matches "/api/unknown/x" = false ∧
      (Pattern.under "/api/identity").matches "/api/unknown/x" = false ∧
      (Pattern.under "/api/storage").matches "/api/unknown/x" = false ∧
      unmapped (sampleRequest "GET" "/api/unknown/x" []) = true) ∧
    (dispatch samplePlatform (sampleRequest "GET" "/api/unknown/x" []) 0
      World.initial).1.status = 401 ∧
    (dispatch samplePlatform
      (sampleRequest "GET" "/api/unknown/x" [("Authorization", "Bearer alice")]) 0
      { kv := [{ key := "rate_limit:alice:0", value := "1000", expiresAt := 60000 }],
        fetches := [], usage := [] }).1.status = 429 ∧
    (dispatch samplePlatform (sampleRequest "OPTIONS" "/api/unknown/x" []) 0
      World.initial).1.status = 204 := by
  decide

/-- C8 as amended: a request whose path matches none of the product routes
causes no outbound call and no usage line.  When no other route is
registered for it either, the response is 404 unless a middleware answers
first: an `OPTIONS` request is answered by the cors middleware with 204;
otherwise, outside `/api` the response is 404, and below `/api` it is 401
when the credential does not verify, 429 when the credential verifies and
`checkRateLimit` rejects, and 404 when `checkRateLimit` admits. -/
theorem unmapped_path_never_forwarded (P : Platform) (req : Request) (now : Nat) (w : World)
    (hv : (Pattern.under "/api/vllm").matches req.path = false)
    (hi : (Pattern.under "/api/identity").matches req.path = false)
    (hs : (Pattern.under "/api/storage").matches req.path = false) :
    (dispatch P req now w).2.fetches = w.fetches ∧
    (dispatch P req now w).2.usage = w.usage ∧
    (req.method = "OPTIONS" → (dispatch P req now w).1.status = 204) ∧
    (unmapped req = true → req.method ≠ "OPTIONS" →
      ((Pattern.under "/api").matches req.path = false →
        (dispatch P req now w).1.status = 404) ∧
      ((Pattern.under "/api").matches req.path = true → P.verifyJwt req.headers = none →
        (dispatch P req now w).1.status = 401) ∧
      (∀ p : JwtPayload, (Pattern.under "/api").matches req.path = true →
        P.verifyJwt req.headers = some p →
        ((checkRateLimit { req := req, jwtPayload := p, now := now } w.kv).1.admitted = true →
          (dispatch P req now w).1.status = 404) ∧
        ((checkRateLimit { req := req, jwtPayload := p, now := now } w.kv).1.admitted = false →
          (dispatch P req now w).1.status = 429))) := by
  have hframe : ∀ method : String,
      (runChain P req now (matched method req.path) none w).2.fetches = w.fetches ∧
      (runChain P req now (matched method req.path) none w).2.usage = w.usage := by
    intro method
    obtain ⟨m1, m2, m3⟩ := matched_product method req.path
    exact runChain_frame P req now _ none w
      (fun h => by have := m1 h; rw [hv] at this; exact Bool.noConfusion this)
      (fun h => by have := m2 h; rw [hi] at this; exact Bool.noConfusion this)
      (fun h => by have := m3 h; rw [hs] at this; exact Bool.noConfusion this)
  have hstatus : (dispatch P req now w).1.status =
      (runChain P req now
        (matched (if req.method == "HEAD" then "GET" else req.method) req.path) none w).1.status := by
    unfold dispatch
    split <;> rfl
  refine ⟨?_, ?_, ?_, ?_⟩
  · unfold dispatch
    split
    · exact (hframe "GET").1
    · exact (hframe req.method).1
  · unfold dispatch
    split
    · exact (hframe "GET").2
    · exact (hframe req.method).2
  · intro hopt
    obtain ⟨rest, hrest⟩ :=
      matched_starts_global (if req.method == "HEAD" then "GET" else req.method) req.path
    have hopt2 : (req.method == "OPTIONS") = true := by simp [hopt]
    rw [hstatus, hrest]
    simp only [runChain, hopt2, if_true]
    rfl
  · intro hun hopt
    have hmid := matched_middleware_only _ req.path hun
    refine ⟨?_, ?_, ?_⟩
    · intro hapi
      rw [hstatus, hmid]
      simp only [hapi, Bool.false_eq_true, if_false]
      rw [runChain_global P req now w hopt]
      rfl
    · intro hapi hjwt
      rw [hstatus, hmid]
      simp only [hapi, if_true]
      rw [(runChain_api P req now w hopt).1 hjwt]
      rfl
    · intro p hapi hjwt
      refine ⟨?_, ?_⟩
      · intro hadm
        rw [hstatus, hmid]
        simp only [hapi, if_true]
        rw [((runChain_api P req now w hopt).2 p hjwt).1 hadm]
        rfl
      · intro hrej
        rw [hstatus, hmid]
        simp only [hapi, if_true]
        rw [((runChain_api P req now w hopt).2 p hjwt).2 hrej]
        rfl

theorem unmapped_path_never_forwarded_witness :
    (dispatch samplePlatform (sampleRequest "GET" "/admin/users/" []) 0
        World.initial).1.status = 404 ∧
    (dispatch samplePlatform
        (sampleRequest "GET" "/api/vllmx/y" [("Authorization", "Bearer alice")]) 0
        World.initial).1.status = 404 :=
  ⟨((unmapped_path_never_forwarded samplePlatform (sampleRequest "GET" "/admin/users/" []) 0
      World.initial (by decide) (by decide) (by decide)).2.2.2 (by decide) (by decide)).1
      (by decide),
   (((unmapped_path_never_forwarded samplePlatform
      (sampleRequest "GET" "/api/vllmx/y" [("Authorization", "Bearer alice")]) 0 World.initial
      (by decide) (by decide) (by decide)).2.2.2 (by decide) (by decide)).2.2
      { sub := "alice" } (by decide) (by rfl)).1 (by decide)⟩

/-! ## C10: the product routes through the whole application -/

theorem under_cases (p path : String) (h : (Pattern.under p).matches path = true) :
    path = p ∨ (p ++ "/").data <+: path.data := by
  simp only [Pattern.matches, Bool.or_eq_true, beq_iff_eq, List.isPrefixOf_iff_prefix] at h
  exact h

/-- A literal path that does not lie under `p` is not the path of a request
that does. -/
theorem exact_excluded (e p path : String) (hp : (Pattern.under p).matches path = true)
    (he : (Pattern.under p).matches e = false) : (Pattern.exact e).matches path = false := by
  by_contra hc
  have : path = e := by simpa [Pattern.matches] using hc
  subst this
  rw [he] at hp
  exact Bool.noConfusion hp

/-- What lies under `q` lies under `p` when `q` itself does and `q/` starts
with `p/`. -/
theorem under_mono (p q path : String) (hq : (Pattern.under q).matches path = true)
    (h1 : (Pattern.under p).matches q = true)
    (h2 : (p ++ "/").data.isPrefixOf (q ++ "/").data = true) :
    (Pattern.under p).matches path = true := by
  rcases under_cases q path hq with h | h
  · subst h
    exact h1
  · have h3 : (p ++ "/").data <+: path.data :=
      List.IsPrefix.trans (List.isPrefixOf_iff_prefix.mp h2) h
    simp only [Pattern.matches, Bool.or_eq_true, beq_iff_eq, List.isPrefixOf_iff_prefix]
    exact Or.inr h3

/-- Two mount points neither of which lies under the other have no path in
common. -/
theorem under_disjoint (p q path : String) (hp : (Pattern.under p).matches path = true)
    (h1 : (Pattern.under q).matches p = false) (h2 : (Pattern.under p).matches q = false)
    (h3 : (p ++ "/").data.isPrefixOf (q ++ "/").data = false)
    (h4 : (q ++ "/").data.isPrefixOf (p ++ "/").data = false) :
    (Pattern.under q).matches path = false := by
  by_contra hc
  have hq : (Pattern.under q).matches path = true := by simpa using hc
  rcases under_cases p path hp with h | h
  · subst h
    rw [h1] at hq
    exact Bool.noConfusion hq
  · rcases under_cases q path hq with h' | h'
    · subst h'
      rw [h2] at hp
      exact Bool.noConfusion hp
    · rcases List.prefix_or_prefix_of_prefix h h' with hpq | hqp
      · rw [← List.isPrefixOf_iff_prefix, h3] at hpq
        exact Bool.noConfusion hpq
      · rw [← List.isPrefixOf_iff_prefix, h4] at hqp
        exact Bool.noConfusion hqp

/-- The handlers the router returns for a path on a product route: the four
middlewares and the handler of that route. -/
theorem matched_on_product (method path : String) :
    ((Pattern.under "/api/vllm").matches path = true → matched method path =
      [Handler.logger, Handler.cors, Handler.jwt, Handler.rateLimit, Handler.vllm]) ∧
    ((Pattern.under "/api/identity").matches path = true → matched method path =
      [Handler.logger, Handler.cors, Handler.jwt, Handler.rateLimit, Handler.identity]) ∧
    ((Pattern.under "/api/storage").matches path = true → matched method path =
      [Handler.logger, Handler.cors, Handler.jwt, Handler.rateLimit, Handler.storage]) := by
  have eany : Pattern.any.matches path = true := rfl
  refine ⟨?_, ?_, ?_⟩
  · intro h
    have hapi := under_mono "/api" _ path h (by decide) (by decide)
    have e1 := exact_excluded "/" _ path h (by decide)
    have e2 := exact_excluded "/auth/login" _ path h (by decide)
    have e3 := exact_excluded "/auth/register" _ path h (by decide)
    have e4 := exact_excluded "/admin/users" _ path h (by decide)
    have e5 := exact_excluded "/admin/analytics" _ path h (by decide)
    have e6 := exact_excluded "/webhooks/stripe" _ path h (by decide)
    have d1 := under_disjoint _ "/api/identity" path h (by decide) (by decide) (by decide)
      (by decide)
    have d2 := under_disjoint _ "/api/storage" path h (by decide) (by decide) (by decide)
      (by decide)
    simp [matched, routes, List.filter, e1, e2, e3, e4, e5, e6, eany, hapi, h, d1, d2]
  · intro h
    have hapi := under_mono "/api" _ path h (by decide) (by decide)
    have e1 := exact_excluded "/" _ path h (by decide)
    have e2 := exact_excluded "/auth/login" _ path h (by decide)
    have e3 := exact_excluded "/auth/register" _ path h (by decide)
    have e4 := exact_excluded "/admin/users" _ path h (by decide)
    have e5 := exact_excluded "/admin/analytics" _ path h (by decide)
    have e6 := exact_excluded "/webhooks/stripe" _ path h (by decide)
    have d1 := under_disjoint _ "/api/vllm" path h (by decide) (by decide) (by decide)
      (by decide)
    have d2 := under_disjoint _ "/api/storage" path h (by decide) (by decide) (by decide)
      (by decide)
    simp [matched, routes, List.filter, e1, e2, e3, e4, e5, e6, eany, hapi, h, d1, d2]
  · intro h
    have hapi := under_mono "/api" _ path h (by decide) (by decide)
    have e1 := exact_excluded "/" _ path h (by decide)
    have e2 := exact_excluded "/auth/login" _ path h (by decide)
    have e3 := exact_excluded "/auth/register" _ path h (by decide)
    have e4 := exact_excluded "/admin/users" _ path h (by decide)
    have e5 := exact_excluded "/admin/analytics" _ path h (by decide)
    have e6 := exact_excluded "/webhooks/stripe" _ path h (by decide)
    have d1 := under_disjoint _ "/api/vllm" path h (by decide) (by decide) (by decide)
      (by decide)
    have d2 := under_disjoint _ "/api/identity" path h (by decide) (by decide) (by decide)
      (by decide)
    simp [matched, routes, List.filter, e1, e2, e3, e4, e5, e6, eany, hapi, h, d1, d2]

/-- The chain of a product route on a request that is not a preflight, whose
credential verifies and that the rate limiter admits: one outbound call with
the method, headers and body of the request, and the backend's response as
the answer. -/
theorem runChain_product (P : Platform) (req : Request) (now : Nat) (w : World)
    (p : JwtPayload) (H : Handler)
    (hH : H = Handler.vllm ∨ H = Handler.identity ∨ H = Handler.storage)
    (hopt : req.method ≠ "OPTIONS") (hjwt : P.verifyJwt req.headers = some p)
    (hadm : (checkRateLimit { req := req, jwtPayload := p, now := now } w.kv).1 = Outcome.next) :
    ∃ call : FetchCall,
      (runChain P req now [Handler.logger, Handler.cors, Handler.jwt, Handler.rateLimit, H]
        none w).2.fetches = w.fetches ++ [call] ∧
      call.method = req.method ∧ call.headers = req.headers ∧ call.body = req.body ∧
      ∀ r : Response, P.fetch call = some r →
        (runChain P req now [Handler.logger, Handler.cors, Handler.jwt, Handler.rateLimit, H]
          none w).1.status = r.status ∧
        (runChain P req now [Handler.logger, Handler.cors, Handler.jwt, Handler.rateLimit, H]
          none w).1.body = r.body := by
  have hopt2 : (req.method == "OPTIONS") = false := by simpa using hopt
  generalize hres : checkRateLimit { req := req, jwtPayload := p, now := now } w.kv = res at hadm
  obtain ⟨o, kv⟩ := res
  simp only at hadm
  subst hadm
  obtain ⟨tv, ti, ts⟩ := handlers_transparent P { req := req, jwtPayload := p, now := now }
    { w with kv := kv }
  rcases hH with h | h | h
  · subst h
    obtain ⟨call, hf, hm, hh, hb, hback⟩ := tv
    refine ⟨call, ?_, hm, hh, hb, ?_⟩
    · simp only [runChain, hopt2, hjwt, hres, Bool.false_eq_true, if_false, settle]
      split <;> exact hf
    · intro r hr
      obtain ⟨out, hout, hst, -, hbody⟩ := hback r hr
      simp only [runChain, hopt2, hjwt, hres, Bool.false_eq_true, if_false, settle, hout]
      exact ⟨hst, hbody⟩
  · subst h
    obtain ⟨call, hf, hm, hh, hb, hback⟩ := ti
    refine ⟨call, ?_, hm, hh, hb, ?_⟩
    · simp only [runChain, hopt2, hjwt, hres, Bool.false_eq_true, if_false, settle]
      split <;> exact hf
    · intro r hr
      obtain ⟨out, hout, hst, -, hbody⟩ := hback r hr
      simp only [runChain, hopt2, hjwt, hres, Bool.false_eq_true, if_false, settle, hout]
      exact ⟨hst, hbody⟩
  · subst h
    obtain ⟨call, hf, hm, hh, hb, hback⟩ := ts
    refine ⟨call, ?_, hm, hh, hb, ?_⟩
    · simp only [runChain, hopt2, hjwt, hres, Bool.false_eq_true, if_false, settle]
      split <;> exact hf
    · intro r hr
      obtain ⟨out, hout, hst, -, hbody⟩ := hback r hr
      simp only [runChain, hopt2, hjwt, hres, Bool.false_eq_true, if_false, settle, hout]
      exact ⟨hst, hbody⟩

/-- C10: the application is a transparent proxy on the product routes.  For
every request on a product route that reaches its handler (it is not a
preflight, its credential verifies and the rate limiter admits it), the one
outbound call has the method, the headers and the body of the request, and
whatever response the backend gives, error statuses included, the caller
gets a response with the same status and the same body. -/
theorem dispatch_proxies_transparently (P : Platform) (req : Request) (now : Nat) (w : World)
    (p : JwtPayload) (hroute : onProductRoute req = true) (hopt : req.method ≠ "OPTIONS")
    (hjwt : P.verifyJwt req.headers = some p)
    (hadm : (checkRateLimit { req := req, jwtPayload := p, now := now } w.kv).1 = Outcome.next) :
    TransparentDispatch P req now w := by
  obtain ⟨mv, mi, ms⟩ :=
    matched_on_product (if req.method == "HEAD" then "GET" else req.method) req.path
  have hchain : ∃ H, (H = Handler.vllm ∨ H = Handler.identity ∨ H = Handler.storage) ∧
      matched (if req.method == "HEAD" then "GET" else req.method) req.path =
        [Handler.logger, Handler.cors, Handler.jwt, Handler.rateLimit, H] := by
    simp only [onProductRoute, Bool.or_eq_true] at hroute
    rcases hroute with (h | h) | h
    · exact ⟨_, Or.inl rfl, mv h⟩
    · exact ⟨_, Or.inr (Or.inl rfl), mi h⟩
    · exact ⟨_, Or.inr (Or.inr rfl), ms h⟩
  obtain ⟨H, hH, hmatched⟩ := hchain
  obtain ⟨call, hf, hm, hh, hb, hback⟩ := runChain_product P req now w p H hH hopt hjwt hadm
  rw [← hmatched] at hf hback
  refine ⟨call, ?_, hm, hh, hb, ?_⟩
  · unfold dispatch
    by_cases hhead : (req.method == "HEAD") = true
    · simp only [hhead, if_true] at hf ⊢
      exact hf
    · simp only [hhead, if_false] at hf ⊢
      exact hf
  · intro r hr hnobody
    unfold dispatch
    by_cases hhead : (req.method == "HEAD") = true
    · simp only [hhead, if_true] at hback ⊢
      refine ⟨(hback r hr).1, ?_⟩
      rw [hnobody (by simpa using hhead)]
    · simp only [hhead, if_false] at hback ⊢
      exact hback r hr

theorem dispatch_proxies_transparently_witness :
    ∃ call : FetchCall,
      (dispatch samplePlatform
        (sampleRequest "POST" "/api/storage/objects/x" [("Authorization", "Bearer alice"),
          ("X-Trace", "42")]) 0 World.initial).2.fetches = [call] ∧
      call.method = "POST" ∧ call.headers = [("Authorization", "Bearer alice"), ("X-Trace", "42")] ∧
      (dispatch samplePlatform
        (sampleRequest "POST" "/api/storage/objects/x" [("Authorization", "Bearer alice"),
          ("X-Trace", "42")]) 0 World.initial).1.status = 200 := by
  obtain ⟨call, hf, hm, hh, -, hback⟩ := dispatch_proxies_transparently samplePlatform
    (sampleRequest "POST" "/api/storage/objects/x" [("Authorization", "Bearer alice"),
      ("X-Trace", "42")]) 0 World.initial { sub := "alice" } (by decide) (by decide) (by rfl)
    (by rfl)
  exact ⟨call, hf, hm, hh,
    (hback { status := 200, headers := [], body := Body.raw call.url } rfl
      (fun h => absurd h (by decide))).1⟩

/-! ## C3: overlapping executions -/

theorem afterRead_under (c : Context) (kv : KV) (sub : String) (w j : Nat) (hj : j < 1000)
    (hc : c.jwtPayload.sub = sub ∧ c.now / 60000 = w) :
    (afterRead c (encodeCount j) kv).1 = Outcome.next ∧
    ∀ t, t / 60000 = w →
      (afterRead c (encodeCount j) kv).2.get (rateLimitKey sub t) t = encodeCount (j + 1) := by
  have hover : overLimit (encodeCount j) = false := by
    unfold encodeCount
    by_cases h0 : j = 0
    · simp [h0, overLimit]
    · simp only [h0, if_false, overLimit_natToString]
      simp
      omega
  have hnext : nextCount (encodeCount j) = natToString (j + 1) := by
    unfold encodeCount
    by_cases h0 : j = 0
    · subst h0
      decide
    · simp only [h0, if_false, nextCount_natToString]
  refine ⟨by simp [afterRead, hover], ?_⟩
  intro t ht
  have hkey : rateLimitKey sub t = rateLimitKey c.jwtPayload.sub c.now := by
    rw [hc.1]
    exact rateLimitKey_window sub t c.now (by rw [ht, hc.2])
  have hlt : t < c.now + 60 * 1000 := by
    have := hc.2
    omega
  simp only [afterRead, hover, hnext, hkey]
  simpa [encodeCount] using KV.get_put_same kv _ (natToString (j + 1)) 60 c.now t hlt

theorem afterRead_full (c : Context) (kv : KV) (j : Nat) (hj : 1000 ≤ j) :
    afterRead c (encodeCount j) kv = (Outcome.respond rateLimitExceeded, kv) := by
  have hover : overLimit (encodeCount j) = true := by
    unfold encodeCount
    have h0 : j ≠ 0 := by omega
    simp only [h0, if_false, overLimit_natToString]
    simp
    omega
  simp [afterRead, hover]

/-- One step of any execution keeps the invariant. -/
theorem stepTask_inv (sub : String) (w : Nat) (cs : List Context)
    (hcs : ∀ c ∈ cs, c.jwtPayload.sub = sub ∧ c.now / 60000 = w) (i : Nat) (s : Conc)
    (hinv : ConcInv sub w cs.length s) : ConcInv sub w cs.length (stepTask cs i s) := by
  obtain ⟨hlen, k, hk, hkA, hk1, hhold⟩ := hinv
  cases hci : cs[i]? with
  | none => simpa [stepTask, hci] using ⟨hlen, k, hk, hkA, hk1, hhold⟩
  | some c =>
    have hc := hcs c (List.getElem?_mem hci)
    cases hpi : s.phases[i]? with
    | none => simpa [stepTask, hci, hpi] using ⟨hlen, k, hk, hkA, hk1, hhold⟩
    | some ph =>
      obtain ⟨hlt, hget⟩ := List.getElem?_eq_some.mp hpi
      cases ph with
      | finished count o => simpa [stepTask, hci, hpi] using ⟨hlen, k, hk, hkA, hk1, hhold⟩
      | ready =>
        have hA : (s.phases.set i (Phase.holding (readCount c s.kv))).countP Phase.admitted
            = s.phases.countP Phase.admitted := by
          rw [List.countP_set _ _ _ _ hlt, hget]
          simp [Phase.admitted]
        have hread : readCount c s.kv = encodeCount k := by
          unfold readCount
          rw [hc.1]
          exact hk c.now hc.2
        simp only [stepTask, hci, hpi]
        refine ⟨by simpa using hlen, k, hk, ?_, ?_, ?_⟩
        · simpa only [admittedCount, hA] using hkA
        · simpa only [admittedCount, hA] using hk1
        · intro count hmem
          simp only [admittedCount, hA]
          rcases List.mem_or_eq_of_mem_set hmem with hold | hnew
          · exact hhold count hold
          · injection hnew with hnew
            exact ⟨k, hkA, by rw [hnew, hread]⟩
      | holding count =>
        obtain ⟨j, hjA, hcount⟩ := hhold count (List.getElem?_mem hpi)
        simp only [stepTask, hci, hpi]
        by_cases hj : j < 1000
        · obtain ⟨hout, hkv⟩ := afterRead_under c s.kv sub w j hj hc
          rw [← hcount] at hout hkv
          have hA : (s.phases.set i (Phase.finished count (afterRead c count s.kv).1)).countP
              Phase.admitted = s.phases.countP Phase.admitted + 1 := by
            rw [List.countP_set _ _ _ _ hlt, hget, hout]
            simp [Phase.admitted]
          refine ⟨by simpa using hlen, j + 1, hkv, ?_, ?_, ?_⟩
          · simp only [admittedCount, hA]
            unfold admittedCount at hjA
            omega
          · intro _
            omega
          · intro count2 hmem
            simp only [admittedCount, hA]
            rcases List.mem_or_eq_of_mem_set hmem with hold | hnew
            · obtain ⟨j2, hj2, hc2⟩ := hhold count2 hold
              unfold admittedCount at hj2
              exact ⟨j2, by omega, hc2⟩
            · exact Phase.noConfusion hnew
        · have hfull := afterRead_full c s.kv j (by omega)
          rw [← hcount] at hfull
          have hA : (s.phases.set i (Phase.finished count (afterRead c count s.kv).1)).countP
              Phase.admitted = s.phases.countP Phase.admitted := by
            rw [List.countP_set _ _ _ _ hlt, hget, hfull]
            simp [Phase.admitted]
          refine ⟨by simpa using hlen, k, ?_, ?_, ?_, ?_⟩
          · rw [hfull]
            exact hk
          · simpa only [admittedCount, hA] using hkA
          · simpa only [admittedCount, hA] using hk1
          · intro count2 hmem
            simp only [admittedCount, hA]
            rcases List.mem_or_eq_of_mem_set hmem with hold | hnew
            · exact hhold count2 hold
            · exact Phase.noConfusion hnew

theorem runSchedule_inv (sub : String) (w : Nat) (cs : List Context)
    (hcs : ∀ c ∈ cs, c.jwtPayload.sub = sub ∧ c.now / 60000 = w) :
    ∀ (schedule : List Nat) (s : Conc), ConcInv sub w cs.length s →
      ConcInv sub w cs.length (runSchedule cs schedule s) := by
  intro schedule
  induction schedule with
  | nil => intro s h; exact h
  | cons i rest ih =>
    intro s h
    exact ih (stepTask cs i s) (stepTask_inv sub w cs hcs i s h)

theorem start_inv (sub : String) (w : Nat) (cs : List Context) (kv : KV)
    (hfresh : ∀ t, t / 60000 = w → kv.get (rateLimitKey sub t) t = none) :
    ConcInv sub w cs.length (Conc.start cs kv) := by
  have hA : admittedCount (Conc.start cs kv) = 0 := by
    simp [admittedCount, Conc.start, List.countP_eq_zero, Phase.admitted]
  refine ⟨by simp [Conc.start], 0, ?_, by omega, ?_, ?_⟩
  · intro t ht
    simpa [Conc.start, encodeCount] using hfresh t ht
  · intro h
    omega
  · intro count hmem
    simp [Conc.start] at hmem

theorem encodeCount_injective (a b : Nat) (h : encodeCount a = encodeCount b) : a = b := by
  unfold encodeCount at h
  by_cases ha : a = 0 <;> by_cases hb : b = 0
  · omega
  · simp [ha, hb] at h
  · simp [ha, hb] at h
  · simp only [ha, hb, if_false, Option.some.injEq] at h
    exact natToString_injective a b h

theorem runSchedule_append (cs : List Context) (a b : List Nat) (s : Conc) :
    runSchedule cs (a ++ b) s = runSchedule cs b (runSchedule cs a s) := by
  simp [runSchedule, List.foldl_append]

/-- Without overlap, after the first `n` executions (at most 1000) the
counter reads `n`, execution `i` below `n` is done, was admitted and had read
`i`, and the others have not started. -/
theorem serial_state (sub : String) (w : Nat) (cs : List Context) (kv : KV)
    (hcs : ∀ c ∈ cs, c.jwtPayload.sub = sub ∧ c.now / 60000 = w)
    (hfresh : ∀ t, t / 60000 = w → kv.get (rateLimitKey sub t) t = none) :
    ∀ n, n ≤ cs.length → n ≤ 1000 →
      (∀ t, t / 60000 = w →
        (runSchedule cs (serialSchedule n) (Conc.start cs kv)).kv.get (rateLimitKey sub t) t
          = encodeCount n) ∧
      (runSchedule cs (serialSchedule n) (Conc.start cs kv)).phases =
        (List.range n).map (fun i => Phase.finished (encodeCount i) Outcome.next) ++
          List.replicate (cs.length - n) Phase.ready := by
  intro n
  induction n with
  | zero =>
    intro _ _
    refine ⟨?_, ?_⟩
    · intro t ht
      simpa [serialSchedule, runSchedule, Conc.start, encodeCount] using hfresh t ht
    · simp [serialSchedule, runSchedule, Conc.start, List.map_const']
  | succ n ih =>
    intro hn hn1000
    obtain ⟨hkv, hph⟩ := ih (by omega) (by omega)
    obtain ⟨c, hci⟩ : ∃ c, cs[n]? = some c := ⟨cs[n], List.getElem?_eq_getElem (by omega)⟩
    have hc := hcs c (List.getElem?_mem hci)
    generalize hs : runSchedule cs (serialSchedule n) (Conc.start cs kv) = s at hkv hph
    have hrep : List.replicate (cs.length - n) Phase.ready
        = Phase.ready :: List.replicate (cs.length - (n + 1)) Phase.ready := by
      have : cs.length - n = (cs.length - (n + 1)) + 1 := by omega
      rw [this, List.replicate_succ]
    have hlenmap : ((List.range n).map
        (fun i => Phase.finished (encodeCount i) Outcome.next)).length = n := by simp
    have hp1 : s.phases[n]? = some Phase.ready := by
      rw [hph, hrep, List.getElem?_append_right (by rw [hlenmap]), hlenmap]
      simp
    have hread : readCount c s.kv = encodeCount n := by
      unfold readCount
      rw [hc.1]
      exact hkv c.now hc.2
    have hstep1 : stepTask cs n s
        = { s with phases := s.phases.set n (Phase.holding (encodeCount n)) } := by
      simp only [stepTask, hci, hp1, hread]
    have hp2 : (s.phases.set n (Phase.holding (encodeCount n)))[n]?
        = some (Phase.holding (encodeCount n)) := by
      have : n < s.phases.length := (List.getElem?_eq_some.mp hp1).1
      simp [List.getElem?_set, this]
    obtain ⟨hout, hkv2⟩ := afterRead_under c s.kv sub w n (by omega) hc
    have hrun : runSchedule cs (serialSchedule (n + 1)) (Conc.start cs kv)
        = stepTask cs n (stepTask cs n s) := by
      rw [serialSchedule, runSchedule_append, hs]
      rfl
    rw [hrun, hstep1]
    simp only [stepTask, hci, hp2]
    refine ⟨hkv2, ?_⟩
    rw [hout, List.set_set, hph, hrep, List.set_append_right _ _ (by rw [hlenmap]), hlenmap,
      List.range_succ, List.map_append]
    simp

/-- C3 fails on the code: two executions for the same subject in the same
window whose `get` steps both come before either `put` are both admitted,
both read the same value (no counter), and leave the counter at 1, not 2. -/
theorem concurrent_increment_is_lost :
    (runSchedule [sampleContext "alice" 0, sampleContext "alice" 1] [0, 1, 0, 1]
        (Conc.start [sampleContext "alice" 0, sampleContext "alice" 1] [])).phases.map
        Phase.admitted = [true, true] ∧
    (runSchedule [sampleContext "alice" 0, sampleContext "alice" 1] [0, 1, 0, 1]
        (Conc.start [sampleContext "alice" 0, sampleContext "alice" 1] [])).phases.map
        Phase.readValue = [some none, some none] ∧
    (runSchedule [sampleContext "alice" 0, sampleContext "alice" 1] [0, 1, 0, 1]
        (Conc.start [sampleContext "alice" 0, sampleContext "alice" 1] [])).kv.get
        (rateLimitKey "alice" 0) 2 = some "1" := by
  decide

/-- C3 as amended: for N executions of `checkRateLimit` for one subject in
one window, from an absent counter, (1) under any interleaving of their
`get` and `put` steps in which all N end admitted, the counter ends at some
k with 1 ≤ k ≤ N; (2) when they do not overlap and N ≤ 1000, all N are
admitted, the counter ends at exactly N and no two of them read the same
value before incrementing. -/
theorem overlapping_executions_counter (sub : String) (w : Nat) (cs : List Context) (kv : KV)
    (hcs : ∀ c ∈ cs, c.jwtPayload.sub = sub ∧ c.now / 60000 = w)
    (hfresh : ∀ t, t / 60000 = w → kv.get (rateLimitKey sub t) t = none)
    (hne : cs ≠ []) :
    (∀ schedule : List Nat,
      (∀ ph ∈ (runSchedule cs schedule (Conc.start cs kv)).phases, ph.admitted = true) →
      ∃ k, 1 ≤ k ∧ k ≤ cs.length ∧ ∀ t, t / 60000 = w →
        (runSchedule cs schedule (Conc.start cs kv)).kv.get (rateLimitKey sub t) t
          = some (natToString k)) ∧
    (cs.length ≤ 1000 →
      (∀ ph ∈ (runSchedule cs (serialSchedule cs.length) (Conc.start cs kv)).phases,
        ph.admitted = true) ∧
      (∀ t, t / 60000 = w →
        (runSchedule cs (serialSchedule cs.length) (Conc.start cs kv)).kv.get
          (rateLimitKey sub t) t = some (natToString cs.length)) ∧
      ((runSchedule cs (serialSchedule cs.length) (Conc.start cs kv)).phases.map
        Phase.readValue).Nodup) := by
  have hpos : 0 < cs.length := List.length_pos.mpr hne
  refine ⟨?_, ?_⟩
  · intro schedule hall
    obtain ⟨hlen, k, hk, hkA, hk1, -⟩ :=
      runSchedule_inv sub w cs hcs schedule _ (start_inv sub w cs kv hfresh)
    have hA : admittedCount (runSchedule cs schedule (Conc.start cs kv)) = cs.length := by
      unfold admittedCount
      rw [← hlen]
      exact List.countP_eq_length.mpr hall
    have h1 : 1 ≤ k := hk1 (by omega)
    refine ⟨k, h1, by omega, ?_⟩
    intro t ht
    rw [hk t ht]
    have : k ≠ 0 := by omega
    simp [encodeCount, this]
  · intro hle
    obtain ⟨hkv, hph⟩ := serial_state sub w cs kv hcs hfresh cs.length (le_refl _) hle
    refine ⟨?_, ?_, ?_⟩
    · intro ph hmem
      rw [hph] at hmem
      simp at hmem
      obtain ⟨i, -, rfl⟩ := hmem
      rfl
    · intro t ht
      rw [hkv t ht]
      have : cs.length ≠ 0 := by omega
      simp [encodeCount, this]
    · rw [hph]
      simp only [Nat.sub_self, List.replicate_zero, List.append_nil, List.map_map]
      refine List.Nodup.map_on ?_ (List.nodup_range cs.length)
      intro a _ b _ hab
      simp only [Function.comp, Phase.readValue, Option.some.injEq] at hab
      exact encodeCount_injective a b hab

theorem overlapping_executions_counter_witness :
    ∃ k, 1 ≤ k ∧ k ≤ 2 ∧
      (runSchedule [sampleContext "alice" 0, sampleContext "alice" 1] [0, 1, 0, 1]
        (Conc.start [sampleContext "alice" 0, sampleContext "alice" 1] [])).kv.get
        (rateLimitKey "alice" 0) 0 = some (natToString k) := by
  obtain ⟨k, h1, h2, hk⟩ :=
    (overlapping_executions_counter "alice" 0 [sampleContext "alice" 0, sampleContext "alice" 1]
      [] (by decide) (fun _ _ => rfl) (by simp)).1 [0, 1, 0, 1] (by decide)
  exact ⟨k, h1, h2, hk 0 (by decide)⟩

end Gateway
